import Mathlib

/-!
# grunt-sfdc-package-builder: the package.xml inventory pipeline

A shallow embedding of `tasks/sfdc_package_builder.js`.

Modelling conventions

* A JavaScript exception (and hence a rejected promise of the chain) is an `Except JsError`
  result.  Mutable closure state (`wildcardTypes`, `itemizedTypes`, `folderNameToType`, the
  batch lists and their counters) is passed explicitly.
* `options.included` / `options.excluded` are `none` when the option is not set (`undefined`,
  falsy) and `some l` when an array is given (an array is truthy, also the empty one).
* `options.excludeManaged` is a boolean or an array of type names.
* Plain objects used as dictionaries (`itemizedTypes`) and `Map`s (`folderNameToType`) are
  association lists in insertion order; type names are taken to be ordinary property names
  (the special property name `__proto__` is outside the model).  `for ... in` visits
  array-index keys first, in ascending numeric order, then the other keys in insertion order.
* `require('./lib/metadata-access.js').noWildcardTypes` and the remote `listMetadata` call are
  not part of the task file; they are parameters.
* What the task does to the outside (warnings, calls of the remote interfaces, file writes
  and deletions, the call of `done`) is recorded as a list of events, in order; the helpers
  of `lib/utils`, the JSON reader, the serialiser and the file writer are fields of an
  `Environment`.
-/

namespace SfdcPackageBuilder

/-! ## Data model -/

/-- Exceptions that reject the task's promise chain. -/
inductive JsError
  | referenceError
  | typeError
  | remoteError
  deriving DecidableEq, Repr

/-- One entry of `metaDescribe.metadataObjects`. -/
structure MetadataTypeDescriptor where
  xmlName : String
  directoryName : String
  inFolder : Bool
  deriving DecidableEq, Repr

/-- The value of `options.excludeManaged`: a boolean or an array of type names. -/
inductive ExcludeManaged
  | flag (b : Bool)
  | names (l : List String)
  deriving DecidableEq, Repr

/-- The credential source `options.login`: a path to a JSON file or an inline object. -/
inductive Login
  | file (path : String)
  | inline (url : Option String)
  deriving DecidableEq, Repr

/-- The task options after merging with the defaults of lines 24-35. -/
structure Options where
  all : Bool := false
  useWildcards : Bool := false
  excludeManaged : ExcludeManaged := ExcludeManaged.flag false
  clearCache : Bool := false
  dest : String := "package.xml"
  apiVersion : String := "44.0"
  included : Option (List String) := none
  excluded : Option (List String) := none
  login : Option Login := none
  deriving DecidableEq, Repr

/-- Line 37: `if (options.excludeManaged === false) options.excludeManaged = [];`. -/
def normalizeExcludeManaged (options : Options) : Options :=
  if options.excludeManaged = ExcludeManaged.flag false then
    { options with excludeManaged := ExcludeManaged.names [] }
  else options

/-- One record of a `listMetadata` result. -/
structure MetadataItem where
  fullName : String
  type : String
  manageableState : String
  deriving DecidableEq, Repr

/-- One query of a `listMetadata` call: `{type}` or `{type, folder}`. -/
structure ListMetadataQuery where
  type : String
  folder : Option String := none
  deriving DecidableEq, Repr

/-- The table `noWildcardTypes` of `lib/metadata-access.js`, indexed by API version;
`none` stands for `undefined` (no entry for the version). -/
abbrev NoWildcardTypesLib := String → Option (List String)

/-- The remote call `listMetadataAsync({queries, asOfVersion})`: it rejects, or resolves to
an array whose first element is falsy (`none`) or an object with a `result` array. -/
abbrev ListMetadata := List ListMetadataQuery → String → Except JsError (Option (List MetadataItem))

/-! ## Dictionaries -/

/-- A plain object or `Map` with string keys, as its entries in insertion order. -/
abbrev Dict (α : Type) := List (String × α)

namespace Dict

variable {α : Type}

/-- The own keys, in insertion order. -/
def keys (d : Dict α) : List String := d.map Prod.fst

/-- The values `d[k]` / `d.get(k)`; `none` stands for `undefined`. -/
def get? (d : Dict α) (k : String) : Option α :=
  match d with
  | [] => none
  | (k', v) :: rest => if k' = k then some v else get? rest k

/-- The assignments `d[k] = v` / `d.set(k, v)`: an existing key keeps its position. -/
def set (d : Dict α) (k : String) (v : α) : Dict α :=
  match d with
  | [] => [(k, v)]
  | (k', v') :: rest => if k' = k then (k', v) :: rest else (k', v') :: set rest k v

/-- The call `d[k].push(x)` on a dictionary of arrays: a TypeError when `d[k]` is
`undefined`. -/
def push (d : Dict (List α)) (k : String) (x : α) : Except JsError (Dict (List α)) :=
  match d.get? k with
  | none => Except.error JsError.typeError
  | some l => Except.ok (d.set k (l ++ [x]))

end Dict

/-- The number written by a string of decimal digits. -/
def digitsValue (cs : List Char) : Nat :=
  cs.foldl (fun n c => 10 * n + (c.toNat - 48)) 0

/-- Whether a property name is an array index: the canonical decimal form (digits only, no
leading zero except for `0` itself) of an integer below `2^32 - 1`. -/
def isArrayIndex (s : String) : Bool :=
  !s.data.isEmpty && s.data.all Char.isDigit && (s.data.head? != some '0' || s.data.length == 1)
    && decide (digitsValue s.data < 4294967295)

/-- The iteration `for (let k in obj) { const v = obj[k]; ... }` over the own properties of
a plain object, as the pairs `(k, v)` in the order visited: array-index keys in ascending
numeric order, then the other keys in insertion order. -/
def forInEntries {α : Type} (obj : Dict α) : List (String × α) :=
  ((obj.filter (fun e => isArrayIndex e.1)).insertionSort
      (fun a b => digitsValue a.1.data ≤ digitsValue b.1.data))
    ++ obj.filter (fun e => !isArrayIndex e.1)

/-! ## Type inclusion and item filter -/

/-- The free identifier `meta` in the body of `includeMetadataType` (lines 262-266).  The
function is declared at module level; `meta` is bound neither by the function (its parameter
is `metaDesc`) nor by the module (the `meta` of line 96 is local to the `for` loop of the task
callback), so evaluating it throws a ReferenceError. -/
def metaOutOfScope : Except JsError MetadataTypeDescriptor :=
  Except.error JsError.referenceError

/-- `includeMetadataType(options, metaDesc)`, lines 259-269.  `&&` and `||` short-circuit:
`meta` is evaluated only when `options.included` (resp. `options.excluded`) is truthy. -/
def includeMetadataType (options : Options) (metaDesc : MetadataTypeDescriptor) :
    Except JsError Bool := do
  let all := options.all
  let included ← match options.included with
    | none => pure false
    | some inc => do
      let m ← metaOutOfScope
      if inc.contains m.xmlName then pure true
      else do
        let m ← metaOutOfScope
        pure (inc.contains m.directoryName)
  let excluded ← match options.excluded with
    | none => pure false
    | some exc => do
      let m ← metaOutOfScope
      if exc.contains m.xmlName then pure true
      else do
        let m ← metaOutOfScope
        pure (exc.contains m.directoryName)
  return (all && !excluded) || included

/-- `includeMetadataItem(options, item)`, lines 271-280. -/
def includeMetadataItem (options : Options) (item : MetadataItem) : Bool :=
  if item.manageableState ≠ "unmanaged" then
    if options.excludeManaged = ExcludeManaged.flag true ||
        (match options.excludeManaged with
          | ExcludeManaged.names l => l.contains item.type
          | ExcludeManaged.flag _ => false) then
      false
    else true
  else true

/-! ## Classification (lines 90-135) -/

/-- The method call `options.excludeManaged.includes(name)`: a boolean has no `includes`
method, so the call throws a TypeError on one. -/
def ExcludeManaged.includes (em : ExcludeManaged) (name : String) : Except JsError Bool :=
  match em with
  | ExcludeManaged.names l => pure (l.contains name)
  | ExcludeManaged.flag _ => Except.error JsError.typeError

/-- The wildcard test of lines 98-102, with the short-circuit order of the source.
`noWildcardsForVersion` is `noWildcardTypesLib[options.apiVersion]`; calling `includes` on
`undefined` throws a TypeError. -/
def wildcardTest (options : Options) (noWildcardsForVersion : Option (List String))
    (md : MetadataTypeDescriptor) : Except JsError Bool := do
  if !options.useWildcards then return false
  let listed ← match noWildcardsForVersion with
    | none => Except.error JsError.typeError
    | some l => pure (l.contains md.xmlName)
  if listed then return false
  if options.excludeManaged = ExcludeManaged.flag true then return true
  if ← options.excludeManaged.includes md.xmlName then return true
  options.excludeManaged.includes md.directoryName

/-- The two buckets filled by the loop of lines 96-108. -/
structure Buckets where
  wildcardTypes : List MetadataTypeDescriptor := []
  typesToQuery : List MetadataTypeDescriptor := []
  deriving DecidableEq, Repr

/-- The loop of lines 96-108 over `metaDescribe.metadataObjects`.  The result is the state
of the two buckets when the loop ends, together with the exception that ended it (if any). -/
def classifyLoop (options : Options) (noWildcardsForVersion : Option (List String)) :
    List MetadataTypeDescriptor → Buckets → Buckets × Option JsError
  | [], st => (st, none)
  | md :: rest, st =>
    match includeMetadataType options md with
    | Except.error e => (st, some e)
    | Except.ok false => classifyLoop options noWildcardsForVersion rest st
    | Except.ok true =>
      match wildcardTest options noWildcardsForVersion md with
      | Except.error e => (st, some e)
      | Except.ok true =>
        classifyLoop options noWildcardsForVersion rest
          { st with wildcardTypes := st.wildcardTypes ++ [md] }
      | Except.ok false =>
        classifyLoop options noWildcardsForVersion rest
          { st with typesToQuery := st.typesToQuery ++ [md] }

/-- The name queried for a type (lines 119-126): the folder pseudo-type of an `inFolder`
type, the `xmlName` otherwise. -/
def metaTypeName (md : MetadataTypeDescriptor) : String :=
  if md.inFolder then
    if md.xmlName = "EmailTemplate" then "EmailFolder" else md.xmlName ++ "Folder"
  else md.xmlName

/-- A list of batches with the counter that fills it (`listQuerySets` / `counter`, and
`folderContentQueries` / `counter`).  The variable holding the batch being filled
(`querySet`, `currentQuery`) is an alias of the last batch pushed; it is `undefined` while
the list is empty. -/
structure Batches where
  sets : List (List ListMetadataQuery) := []
  counter : Nat := 0
  deriving DecidableEq, Repr

/-- The batching statements shared by lines 114-117, 132, 134 and lines 163-171: open a new
batch when `counter % 3 == 0`, push the query to the current batch, increment the counter.
Pushing to an `undefined` current batch would throw a TypeError. -/
def Batches.add (b : Batches) (q : ListMetadataQuery) : Except JsError Batches :=
  let sets := if b.counter % 3 = 0 then b.sets ++ [[]] else b.sets
  match sets.getLast? with
  | none => Except.error JsError.typeError
  | some current => pure { sets := sets.dropLast ++ [current ++ [q]], counter := b.counter + 1 }

/-- The state built by `typesToQuery.forEach` (lines 110-135). -/
structure QueryPlan where
  listQuerySets : Batches := {}
  folderNameToType : Dict String := []
  itemizedTypes : Dict (List MetadataItem) := []
  deriving DecidableEq, Repr

/-- The callback of `typesToQuery.forEach`, lines 113-135. -/
def planType (st : QueryPlan) (md : MetadataTypeDescriptor) : Except JsError QueryPlan := do
  let folderNameToType :=
    if md.inFolder then st.folderNameToType.set (metaTypeName md) md.xmlName
    else st.folderNameToType
  let typeQuery : ListMetadataQuery := { type := metaTypeName md }
  let listQuerySets ← st.listQuerySets.add typeQuery
  pure { listQuerySets := listQuerySets
         folderNameToType := folderNameToType
         itemizedTypes := st.itemizedTypes.set md.xmlName [] }

/-- The statement `typesToQuery.forEach(...)`, lines 110-135, from the empty state. -/
def planQueries (typesToQuery : List MetadataTypeDescriptor) : Except JsError QueryPlan :=
  typesToQuery.foldlM planType {}

/-- The state of the task after the classification callback (lines 90-135). -/
structure Classified where
  wildcardTypes : List MetadataTypeDescriptor
  plan : QueryPlan
  deriving DecidableEq, Repr

/-- The synchronous part of the classification callback, lines 91-135: the state it leaves
(`wildcardTypes`, `itemizedTypes`, `folderNameToType` are closure variables of the task and
keep what was stored before an exception) and the exception thrown, if any.  An exception
of the loop leaves the plan empty, since the `forEach` is not reached; the `forEach` itself
never throws (`planQueries_eq`). -/
def classify (noWildcardTypesLib : NoWildcardTypesLib) (options : Options)
    (metadataObjects : List MetadataTypeDescriptor) : Classified × Option JsError :=
  let noWildcardsForVersion := noWildcardTypesLib options.apiVersion
  match classifyLoop options noWildcardsForVersion metadataObjects {} with
  | (buckets, some e) => ({ wildcardTypes := buckets.wildcardTypes, plan := {} }, some e)
  | (buckets, none) =>
    match planQueries buckets.typesToQuery with
    | Except.error e => ({ wildcardTypes := buckets.wildcardTypes, plan := {} }, some e)
    | Except.ok plan => ({ wildcardTypes := buckets.wildcardTypes, plan := plan }, none)

/-! ## Listing rounds (lines 137-200) -/

/-- The fan-out of one listing round: `sets.map(q => listMetadataAsync(...))` awaited by
`Promise.all`, which rejects when one of the calls rejects and otherwise resolves to the
results in the order of the batches. -/
def listAll (listMetadata : ListMetadata) (asOfVersion : String) :
    List (List ListMetadataQuery) → Except JsError (List (Option (List MetadataItem)))
  | [] => pure []
  | queries :: rest => do
    let res ← listMetadata queries asOfVersion
    let others ← listAll listMetadata asOfVersion rest
    pure (res :: others)

/-- The state of the first-pass result handler (lines 151-178). -/
structure FirstPass where
  folderContentQueries : Batches := {}
  itemizedTypes : Dict (List MetadataItem)
  deriving DecidableEq, Repr

/-- The callback of `res[0].result.forEach`, lines 159-177. -/
def firstPassItem (options : Options) (folderNameToType : Dict String) (st : FirstPass)
    (item : MetadataItem) : Except JsError FirstPass :=
  match folderNameToType.get? item.type with
  | some contentType => do
    let queries ← st.folderContentQueries.add
      { type := contentType, folder := some item.fullName }
    pure { st with folderContentQueries := queries }
  | none =>
    if includeMetadataItem options item then do
      let itemizedTypes ← st.itemizedTypes.push item.type item
      pure { st with itemizedTypes := itemizedTypes }
    else pure st

/-- The callback of `listResults.forEach`, lines 156-178: a falsy `res[0]` is skipped. -/
def firstPassResult (options : Options) (folderNameToType : Dict String) (st : FirstPass)
    (res : Option (List MetadataItem)) : Except JsError FirstPass :=
  match res with
  | none => pure st
  | some result => result.foldlM (firstPassItem options folderNameToType) st

/-- The loop of lines 152-178 over the first-pass listing results. -/
def firstPassHandler (options : Options) (folderNameToType : Dict String)
    (itemizedTypes : Dict (List MetadataItem))
    (listResults : List (Option (List MetadataItem))) : Except JsError FirstPass :=
  listResults.foldlM (firstPassResult options folderNameToType)
    { itemizedTypes := itemizedTypes }

/-- The callback of `queryResult[0].result.forEach`, lines 194-199. -/
def folderContentItem (options : Options) (itemizedTypes : Dict (List MetadataItem))
    (contentItem : MetadataItem) : Except JsError (Dict (List MetadataItem)) :=
  if includeMetadataItem options contentItem then
    itemizedTypes.push contentItem.type contentItem
  else pure itemizedTypes

/-- The callback of `listResults.forEach`, lines 192-200. -/
def folderContentResult (options : Options) (itemizedTypes : Dict (List MetadataItem))
    (queryResult : Option (List MetadataItem)) : Except JsError (Dict (List MetadataItem)) :=
  match queryResult with
  | none => pure itemizedTypes
  | some result => result.foldlM (folderContentItem options) itemizedTypes

/-- The loop of lines 192-200 over the folder-content listing results. -/
def folderContentHandler (options : Options) (itemizedTypes : Dict (List MetadataItem))
    (listResults : List (Option (List MetadataItem))) :
    Except JsError (Dict (List MetadataItem)) :=
  listResults.foldlM (folderContentResult options) itemizedTypes

/-! ## Rendering (lines 202-232) -/

/-- An element holding text only, such as `<members>Foo</members>`. -/
structure XmlLeaf where
  name : String
  text : String
  deriving DecidableEq, Repr

/-- A child of the `Package` element: its tag, its child elements in document order, and
its text (if any). -/
structure XmlElement where
  name : String
  children : List XmlLeaf := []
  text : Option String := none
  deriving DecidableEq, Repr

/-- The document built by `xmlBuilder.create('Package', {encoding: 'UTF-8'})`. -/
structure PackageDocument where
  root : String
  encoding : String
  xmlns : String
  children : List XmlElement
  deriving DecidableEq, Repr

/-- The `types` element of lines 213-220 for a type and its item list: a `members` element
per item, then the `name` element. -/
def itemizedSection (itemType : String) (itemList : List MetadataItem) : XmlElement :=
  { name := "types"
    children :=
      itemList.map (fun item => { name := "members", text := item.fullName })
        ++ [{ name := "name", text := itemType }] }

/-- The loop of lines 207-221: one section per visited type whose item list is not empty. -/
def itemizedSections (itemizedTypes : Dict (List MetadataItem)) : List XmlElement :=
  (forInEntries itemizedTypes).filterMap (fun (itemType, itemList) =>
    if itemList.length = 0 then none else some (itemizedSection itemType itemList))

/-- The loop of lines 223-230: `pkg.ele({types: {members: '*', name: wildcard.xmlName}})`. -/
def wildcardSections (wildcardTypes : List MetadataTypeDescriptor) : List XmlElement :=
  wildcardTypes.map (fun wildcard =>
    { name := "types"
      children := [{ name := "members", text := "*" }, { name := "name", text := wildcard.xmlName }] })

/-- The document of lines 202-232. -/
def renderPackage (options : Options) (itemizedTypes : Dict (List MetadataItem))
    (wildcardTypes : List MetadataTypeDescriptor) : PackageDocument :=
  { root := "Package"
    encoding := "UTF-8"
    xmlns := "http://soap.sforce.com/2006/04/metadata"
    children :=
      itemizedSections itemizedTypes ++ wildcardSections wildcardTypes
        ++ [{ name := "version", text := some options.apiVersion }] }

/-! ## The promise chain from the describe result to the document (lines 90-232) -/

/-- The inventory at the start of rendering. -/
structure Inventory where
  itemizedTypes : Dict (List MetadataItem)
  wildcardTypes : List MetadataTypeDescriptor
  deriving DecidableEq, Repr

/-- The callbacks of lines 90-200 in sequence: classification, first listing round,
first-pass handler, folder-content listing round, folder-content handler.  An exception or
a rejected call rejects the chain.  `util.withValidSession` (not part of the task file) is
taken to run its callback on the metadata client, so both rounds call the same list
interface. -/
def resolveInventory (noWildcardTypesLib : NoWildcardTypesLib) (listMetadata : ListMetadata)
    (options : Options) (metadataObjects : List MetadataTypeDescriptor) :
    Except JsError Inventory :=
  match classify noWildcardTypesLib options metadataObjects with
  | (_, some e) => Except.error e
  | (classified, none) => do
    let listResults ← listAll listMetadata options.apiVersion classified.plan.listQuerySets.sets
    let firstPass ← firstPassHandler options classified.plan.folderNameToType
      classified.plan.itemizedTypes listResults
    let contentResults ← listAll listMetadata options.apiVersion
      firstPass.folderContentQueries.sets
    let itemizedTypes ← folderContentHandler options firstPass.itemizedTypes contentResults
    pure { itemizedTypes := itemizedTypes, wildcardTypes := classified.wildcardTypes }

/-- The document handed to `grunt.file.write` (line 235) for the given describe result, or
the exception that rejected the chain. -/
def buildPackage (noWildcardTypesLib : NoWildcardTypesLib) (listMetadata : ListMetadata)
    (options : Options) (metadataObjects : List MetadataTypeDescriptor) :
    Except JsError PackageDocument := do
  let inventory ← resolveInventory noWildcardTypesLib listMetadata options metadataObjects
  pure (renderPackage options inventory.itemizedTypes inventory.wildcardTypes)

/-! ## The task (lines 20-256) -/

/-- The credentials object: `options.login` itself, or the JSON file it names. -/
structure Credentials where
  url : Option String := none
  deriving DecidableEq, Repr

/-- What the task does to the outside, in the order it happens. -/
inductive Event
  | warn (message : String)
  | logErr (err : JsError)
  | getPartnerClient (endpoint : Option String)
  | getMetaClient
  | describeMetadata (apiVersion : String)
  | listMetadata (queries : List ListMetadataQuery) (asOfVersion : String)
  | fileWrite (dest : String) (contents : String)
  | fileDelete (path : String)
  | done (code : Nat)
  deriving DecidableEq, Repr

/-- The collaborators of the task that are not part of the task file: the JSON reader, the
no-wildcard table, the helpers of `lib/utils` (each call resolves or rejects), the
serialisation `pkg.end(...)` of the document, and `grunt.file.write`. -/
structure Environment where
  readJSON : String → Except JsError Credentials
  noWildcardTypesLib : NoWildcardTypesLib
  getPartnerClient : Credentials → Option String → Except JsError Unit
  getMetaClient : Except JsError Unit
  describeMetadata : String → Except JsError (List MetadataTypeDescriptor)
  listMetadata : ListMetadata
  pkgEnd : PackageDocument → Except JsError String
  fileWrite : String → String → Except JsError Unit

/-- A promise of the chain: the events that happened until it settled, and its outcome. -/
abbrev Chain (α : Type) := List Event × Except JsError α

/-- The method `promise.then(callback)`: the callback runs only when the promise resolved;
a rejection is passed on. -/
def Chain.andThen {α β : Type} (c : Chain α) (callback : α → Chain β) : Chain β :=
  match c.2 with
  | Except.error e => (c.1, Except.error e)
  | Except.ok a => (c.1 ++ (callback a).1, (callback a).2)

/-- Lines 62-65: the endpoint override, set when `creds.url` is truthy. -/
def soapEndpoint (options : Options) (creds : Credentials) : Option String :=
  match creds.url with
  | some url => if url = "" then none else some (url ++ "/services/Soap/u/" ++ options.apiVersion)
  | none => none

/-- Lines 76-79: `Promise.all([util.getPartnerClient(...), util.getMetaClient(...)])`. -/
def getClients (env : Environment) (options : Options) (creds : Credentials) : Chain Unit :=
  ([Event.getPartnerClient (soapEndpoint options creds), Event.getMetaClient],
    do
      env.getPartnerClient creds (soapEndpoint options creds)
      env.getMetaClient)

/-- Lines 81-87: the describe call. -/
def describeCallback (env : Environment) (options : Options) (_data : Unit) :
    Chain (List MetadataTypeDescriptor) :=
  ([Event.describeMetadata options.apiVersion], env.describeMetadata options.apiVersion)

/-- Lines 90-148: classification, then one list call per batch of `listQuerySets`. -/
def classifyCallback (env : Environment) (options : Options)
    (metadataObjects : List MetadataTypeDescriptor) :
    Chain (Classified × List (Option (List MetadataItem))) :=
  match classify env.noWildcardTypesLib options metadataObjects with
  | (_, some e) => ([], Except.error e)
  | (classified, none) =>
    (classified.plan.listQuerySets.sets.map
        (fun queries => Event.listMetadata queries options.apiVersion),
      (listAll env.listMetadata options.apiVersion classified.plan.listQuerySets.sets).map
        (fun listResults => (classified, listResults)))

/-- Lines 151-188: the first-pass handler, then one list call per batch of
`folderContentQueries`. -/
def firstPassCallback (env : Environment) (options : Options)
    (state : Classified × List (Option (List MetadataItem))) :
    Chain (Classified × FirstPass × List (Option (List MetadataItem))) :=
  match firstPassHandler options state.1.plan.folderNameToType state.1.plan.itemizedTypes
      state.2 with
  | Except.error e => ([], Except.error e)
  | Except.ok firstPass =>
    (firstPass.folderContentQueries.sets.map
        (fun queries => Event.listMetadata queries options.apiVersion),
      (listAll env.listMetadata options.apiVersion firstPass.folderContentQueries.sets).map
        (fun contentResults => (state.1, firstPass, contentResults)))

/-- Lines 190-240: the folder-content handler, the rendering, and the write of the
serialised document to `options.dest`. -/
def renderCallback (env : Environment) (options : Options)
    (state : Classified × FirstPass × List (Option (List MetadataItem))) : Chain Unit :=
  match folderContentHandler options state.2.1.itemizedTypes state.2.2 with
  | Except.error e => ([], Except.error e)
  | Except.ok itemizedTypes =>
    match env.pkgEnd (renderPackage options itemizedTypes state.1.wildcardTypes) with
    | Except.error e => ([], Except.error e)
    | Except.ok xml => ([Event.fileWrite options.dest xml], env.fileWrite options.dest xml)

/-- Lines 76-240: the chain of `then` callbacks. -/
def runChain (env : Environment) (options : Options) (creds : Credentials) : Chain Unit :=
  ((((getClients env options creds).andThen (describeCallback env options)).andThen
      (classifyCallback env options)).andThen (firstPassCallback env options)).andThen
    (renderCallback env options)

/-- Lines 242-254: the `catch` handler (log, warn, `doneCode = 6`) and the `finally`
handler (optional cache deletion, `done(doneCode)`); `doneCode` starts at 0 (line 73). -/
def finish (options : Options) (c : Chain Unit) : List Event :=
  c.1
    ++ (match c.2 with
        | Except.ok _ => []
        | Except.error e => [Event.logErr e, Event.warn "Error"])
    ++ (if options.clearCache then [Event.fileDelete ".grunt/sfdc_package_builder"] else [])
    ++ [Event.done (match c.2 with
        | Except.ok _ => 0
        | Except.error _ => 6)]

/-- Lines 57-254: the selection check, then the chain with its handlers. -/
def afterLogin (env : Environment) (options : Options) (creds : Credentials) : List Event :=
  if !options.all && options.included.isNone then
    [Event.warn
      "No metadata requested - specify either \"all\" or specific metadata in \"included\""]
  else finish options (runChain env options creds)

/-- The task function, lines 20-256, on the merged options: the events it causes.
`grunt.warn` is taken to return to the task (the statements after each call are written to
run); a falsy `options.login` is `undefined` or the empty string. -/
def runTask (env : Environment) (taskOptions : Options) : List Event :=
  let options := normalizeExcludeManaged taskOptions
  match options.login with
  | none => [Event.warn "Login credentials missing"]
  | some (Login.file path) =>
    if path = "" then [Event.warn "Login credentials missing"]
    else
      match env.readJSON path with
      | Except.error _ => [Event.warn "Unable to read login"]
      | Except.ok creds => afterLogin env options creds
  | some (Login.inline url) => afterLogin env options { url := url }

/-! ## Reference definitions used to state the properties -/

/-- The managed-exclusion condition of a type, in the words of the specification:
`excludeManaged === true`, or `excludeManaged` contains the `xmlName` or the
`directoryName` of the type. -/
def managedExclusionApplies (options : Options) (md : MetadataTypeDescriptor) : Bool :=
  match options.excludeManaged with
  | ExcludeManaged.flag b => b
  | ExcludeManaged.names l => decide (md.xmlName ∈ l) || decide (md.directoryName ∈ l)

/-- The wildcard rule in the words of the specification: wildcards are enabled, the type is
not in the no-wildcard list of the version, and the managed-exclusion condition holds. -/
def wildcardRule (options : Options) (noWildcards : List String)
    (md : MetadataTypeDescriptor) : Bool :=
  options.useWildcards && decide (md.xmlName ∉ noWildcards)
    && managedExclusionApplies options md

/-- The shape of a batch list holding `L` queries: `ceil(L/3)` batches, each of 1 to 3
queries, all but the last of exactly 3. -/
def BatchShape (sets : List (List ListMetadataQuery)) (L : Nat) : Prop :=
  sets.length = (L + 2) / 3 ∧ (∀ b ∈ sets, 1 ≤ b.length ∧ b.length ≤ 3) ∧
    (∀ b ∈ sets.dropLast, b.length = 3) ∧ (L = 0 → sets = [])

/-- The batch list and counter reached after the queries `qs` were added in order. -/
def Batches.Filled (b : Batches) (qs : List ListMetadataQuery) : Prop :=
  b.sets.flatten = qs ∧ b.counter = qs.length ∧ b.sets.length = (qs.length + 2) / 3 ∧
    (∀ x ∈ b.sets.dropLast, x.length = 3) ∧
    (∀ last ∈ b.sets.getLast?, last.length = (qs.length + 2) % 3 + 1)

/-- The query sent for a type in the first round (lines 119-130). -/
def typeQuery (md : MetadataTypeDescriptor) : ListMetadataQuery :=
  { type := metaTypeName md }

/-- The dictionary `itemizedTypes` after `itemizedTypes[md.xmlName] = []` (line 133) was
executed for the given types in order. -/
def initItemized (typesToQuery : List MetadataTypeDescriptor)
    (d : Dict (List MetadataItem)) : Dict (List MetadataItem) :=
  typesToQuery.foldl (fun d md => d.set md.xmlName []) d

/-- The map `folderNameToType` after the `set` of line 128 was executed for the `inFolder`
types among the given types, in order. -/
def registerFolders (typesToQuery : List MetadataTypeDescriptor)
    (d : Dict String) : Dict String :=
  typesToQuery.foldl
    (fun d md => if md.inFolder then d.set (metaTypeName md) md.xmlName else d) d

/-- The items of a round of listing results in the order returned: batch order, then item
order within a batch; a batch without result contributes nothing. -/
def allItems (listResults : List (Option (List MetadataItem))) : List MetadataItem :=
  (listResults.filterMap id).flatten

/-- The folder-content query `{type: folderNameToType[item.type], folder: item.fullName}` of
an item whose type is a key of `folderNameToType`; `none` for any other item. -/
def folderQuery? (folderNameToType : Dict String) (item : MetadataItem) :
    Option ListMetadataQuery :=
  (folderNameToType.get? item.type).map
    (fun contentType => { type := contentType, folder := some item.fullName })

/-- The first-pass items that are not folder records and pass the item filter. -/
def admittedFirstPass (options : Options) (folderNameToType : Dict String)
    (items : List MetadataItem) : List MetadataItem :=
  items.filter (fun item =>
    (folderNameToType.get? item.type).isNone && includeMetadataItem options item)

/-- The calls `d[item.type].push(item)` for the given items, in order. -/
def pushAll (d : Dict (List MetadataItem)) (items : List MetadataItem) :
    Except JsError (Dict (List MetadataItem)) :=
  items.foldlM (fun d item => d.push item.type item) d

/-- An item returned by the remote list interface for some batch of queries. -/
def Listed (listMetadata : ListMetadata) (asOfVersion : String) (item : MetadataItem) : Prop :=
  ∃ queries items, listMetadata queries asOfVersion = Except.ok (some items) ∧ item ∈ items

/-- A mocked list interface: the class `Foo` and the report folder `MyFolder` for the
first-pass batch, the report `MyFolder/MyReport` for the content of `MyFolder`, nothing for
any other batch. -/
def scenarioListMetadata : ListMetadata := fun queries _ =>
  if queries = [{ type := "ApexClass" }, { type := "ReportFolder" }] then
    Except.ok (some
      [{ fullName := "Foo", type := "ApexClass", manageableState := "unmanaged" },
       { fullName := "MyFolder", type := "ReportFolder", manageableState := "unmanaged" }])
  else if queries = [{ type := "Report", folder := some "MyFolder" }] then
    Except.ok (some
      [{ fullName := "MyFolder/MyReport", type := "Report", manageableState := "unmanaged" }])
  else Except.ok none

/-- A mocked list interface returning managed items next to unmanaged ones, in both
rounds. -/
def managedListMetadata : ListMetadata := fun queries _ =>
  if queries = [{ type := "ApexClass" }, { type := "ReportFolder" }] then
    Except.ok (some
      [{ fullName := "Foo", type := "ApexClass", manageableState := "unmanaged" },
       { fullName := "pkg__Bar", type := "ApexClass", manageableState := "installed" },
       { fullName := "MyFolder", type := "ReportFolder", manageableState := "installed" }])
  else if queries = [{ type := "Report", folder := some "MyFolder" }] then
    Except.ok (some
      [{ fullName := "MyFolder/pkg__Sales", type := "Report", manageableState := "installed" },
       { fullName := "MyFolder/MyReport", type := "Report", manageableState := "unmanaged" }])
  else Except.ok none

/-- The stages of the chain before the write, as one computation: session, describe,
classification and listing rounds, rendering, serialisation.  It fails when one of the
stages fails, and otherwise gives the text handed to `grunt.file.write`. -/
def manifestText (env : Environment) (options : Options) (creds : Credentials) :
    Except JsError String := do
  env.getPartnerClient creds (soapEndpoint options creds)
  env.getMetaClient
  let metadataObjects ← env.describeMetadata options.apiVersion
  let doc ← buildPackage env.noWildcardTypesLib env.listMetadata options metadataObjects
  env.pkgEnd doc

/-- Whether an event is a write to a file. -/
def Event.isFileWrite : Event → Bool
  | Event.fileWrite _ _ => true
  | _ => false

/-- Whether an event is a call of a remote interface: partner client, metadata client,
describe, list. -/
def Event.isRemote : Event → Bool
  | Event.getPartnerClient _ => true
  | Event.getMetaClient => true
  | Event.describeMetadata _ => true
  | Event.listMetadata _ _ => true
  | _ => false

/-- A mocked environment: the session and the describe call succeed, the catalog holds
`ApexClass` and the folder type `Report`, no API version has a no-wildcard entry, listing
is `scenarioListMetadata`, and no credentials file can be read. -/
def scenarioEnvironment : Environment where
  readJSON := fun _ => Except.error JsError.remoteError
  noWildcardTypesLib := fun _ => none
  getPartnerClient := fun _ _ => Except.ok ()
  getMetaClient := Except.ok ()
  describeMetadata := fun _ =>
    Except.ok
      [{ xmlName := "ApexClass", directoryName := "classes", inFolder := false },
       { xmlName := "Report", directoryName := "reports", inFolder := true }]
  listMetadata := scenarioListMetadata
  pkgEnd := fun _ => Except.ok "<Package/>"
  fileWrite := fun _ _ => Except.ok ()

/-- A mocked list interface whose result for the `ApexClass` batch holds an item of the
type `Dashboard`, which was not queried. -/
def untrackedListMetadata : ListMetadata := fun queries _ =>
  if queries = [{ type := "ApexClass" }] then
    Except.ok (some
      [{ fullName := "Foo", type := "ApexClass", manageableState := "unmanaged" },
       { fullName := "Sales", type := "Dashboard", manageableState := "unmanaged" }])
  else Except.ok none

/-- A mocked list interface with a result for the batch of the three Apex types and no
result for any other batch. -/
def sparseListMetadata : ListMetadata := fun queries _ =>
  if queries = [{ type := "ApexClass" }, { type := "ApexPage" }, { type := "ApexTrigger" }] then
    Except.ok (some
      [{ fullName := "Foo", type := "ApexClass", manageableState := "unmanaged" }])
  else Except.ok none

/-- A mocked list interface whose first-pass result holds, next to the folder `MyFolder`,
the report that the content listing of that folder returns as well. -/
def overlappingListMetadata : ListMetadata := fun queries _ =>
  if queries = [{ type := "ReportFolder" }] then
    Except.ok (some
      [{ fullName := "MyFolder", type := "ReportFolder", manageableState := "unmanaged" },
       { fullName := "MyFolder/MyReport", type := "Report", manageableState := "unmanaged" }])
  else if queries = [{ type := "Report", folder := some "MyFolder" }] then
    Except.ok (some
      [{ fullName := "MyFolder/MyReport", type := "Report", manageableState := "unmanaged" }])
  else Except.ok none

/-- A mocked list interface for a catalog holding a type named `7`. -/
def numericListMetadata : ListMetadata := fun queries _ =>
  if queries = [{ type := "Workflow" }, { type := "7" }] then
    Except.ok (some
      [{ fullName := "Case", type := "Workflow", manageableState := "unmanaged" },
       { fullName := "Seven", type := "7", manageableState := "unmanaged" }])
  else Except.ok none

/-- The members of a type at the end of a run: the admitted first-pass items of the type,
then the admitted folder-content items of the type, each in the order returned. -/
def membersOf (options : Options) (folderNameToType : Dict String)
    (listResults contentResults : List (Option (List MetadataItem))) (k : String) :
    List MetadataItem :=
  (admittedFirstPass options folderNameToType (allItems listResults)).filter
      (fun item => item.type = k)
    ++ ((allItems contentResults).filter (includeMetadataItem options)).filter
      (fun item => item.type = k)

/-- The inclusion rule in the words of the specification:
`(all && !excluded(type)) || explicitlyIncluded(type)`, where both tests match the `xmlName`
or the `directoryName` against the configured list. -/
def inclusionRule (options : Options) (md : MetadataTypeDescriptor) : Bool :=
  (options.all &&
      !(match options.excluded with
        | some l => decide (md.xmlName ∈ l) || decide (md.directoryName ∈ l)
        | none => false))
    || (match options.included with
      | some l => decide (md.xmlName ∈ l) || decide (md.directoryName ∈ l)
      | none => false)

/-- A mocked list interface returning, for the `ApexClass` batch, an item whose `fullName`
is the text `*`. -/
def starListMetadata : ListMetadata := fun queries _ =>
  if queries = [{ type := "ApexClass" }] then
    Except.ok (some [{ fullName := "*", type := "ApexClass", manageableState := "unmanaged" }])
  else Except.ok none

/-- Whether a call returned `true` (and did not throw). -/
def returnsTrue (r : Except JsError Bool) : Bool :=
  match r with
  | Except.ok b => b
  | Except.error _ => false

/-! ## Type inclusion -/

theorem includeMetadataType_of_unset (options : Options) (metaDesc : MetadataTypeDescriptor)
    (hi : options.included = none) (he : options.excluded = none) :
    includeMetadataType options metaDesc = Except.ok options.all := by
  simp [includeMetadataType, hi, he, pure, Except.pure, bind, Except.bind]

theorem includeMetadataType_of_set (options : Options) (metaDesc : MetadataTypeDescriptor)
    (h : options.included ≠ none ∨ options.excluded ≠ none) :
    includeMetadataType options metaDesc = Except.error JsError.referenceError := by
  unfold includeMetadataType metaOutOfScope
  cases hi : options.included <;> cases he : options.excluded <;>
    simp_all [pure, Except.pure, bind, Except.bind]

/-- The outcome of `includeMetadataType` does not depend on the descriptor passed in. -/
theorem includeMetadataType_const (options : Options) (d₁ d₂ : MetadataTypeDescriptor) :
    includeMetadataType options d₁ = includeMetadataType options d₂ := by
  by_cases h : options.included ≠ none ∨ options.excluded ≠ none
  · rw [includeMetadataType_of_set _ _ h, includeMetadataType_of_set _ _ h]
  · push_neg at h
    rw [includeMetadataType_of_unset _ _ h.1 h.2, includeMetadataType_of_unset _ _ h.1 h.2]

/-- C1 (code defect).  With `options.included` set to `["ApexClass"]`, the call of
`includeMetadataType` on the descriptor of `ApexClass` throws a ReferenceError instead of
returning `true`: the body reads the unbound identifier `meta`, not its parameter. -/
theorem includeMetadataType_throws_when_included_given :
    includeMetadataType { included := some ["ApexClass"] }
        { xmlName := "ApexClass", directoryName := "classes", inFolder := false }
      = Except.error JsError.referenceError := by
  rfl

/-! ## Item filter -/

/-- C4.  `includeMetadataItem` returns `false` exactly when the item is not unmanaged and
`excludeManaged` is `true` or an array containing the type of the item; otherwise it
returns `true`. -/
theorem includeMetadataItem_eq_false_iff (options : Options) (item : MetadataItem) :
    (includeMetadataItem options item = false ↔
      item.manageableState ≠ "unmanaged" ∧
        (options.excludeManaged = ExcludeManaged.flag true ∨
          ∃ l, options.excludeManaged = ExcludeManaged.names l ∧ item.type ∈ l)) ∧
    (includeMetadataItem options item ≠ false → includeMetadataItem options item = true) := by
  refine ⟨?_, by simp⟩
  unfold includeMetadataItem
  by_cases hm : item.manageableState = "unmanaged"
  · simp [hm]
  · cases hem : options.excludeManaged with
    | flag b => cases b <;> simp [hm]
    | names l => simp [hm]

theorem includeMetadataItem_eq_false_of_managed (options : Options) (item : MetadataItem)
    (hm : item.manageableState ≠ "unmanaged")
    (hem : options.excludeManaged = ExcludeManaged.flag true ∨
      ∃ l, options.excludeManaged = ExcludeManaged.names l ∧ item.type ∈ l) :
    includeMetadataItem options item = false := by
  unfold includeMetadataItem
  rcases hem with hem | ⟨l, hem, hl⟩
  · simp [hm, hem]
  · simp [hm, hem, hl]

/-! ## Classification loop -/

theorem normalizeExcludeManaged_ne (options : Options) :
    (normalizeExcludeManaged options).excludeManaged ≠ ExcludeManaged.flag false := by
  unfold normalizeExcludeManaged
  split
  · simp
  · assumption

theorem wildcardTest_known (options : Options) (noWildcards : List String)
    (md : MetadataTypeDescriptor)
    (h : options.excludeManaged ≠ ExcludeManaged.flag false) :
    wildcardTest options (some noWildcards) md
      = Except.ok (wildcardRule options noWildcards md) := by
  unfold wildcardTest wildcardRule managedExclusionApplies ExcludeManaged.includes
  cases hu : options.useWildcards <;> cases hem : options.excludeManaged with
  | flag b =>
    cases b
    · exact absurd hem h
    · by_cases hx : md.xmlName ∈ noWildcards <;>
        simp [hx, pure, Except.pure, bind, Except.bind]
  | names l =>
    by_cases hx : md.xmlName ∈ noWildcards <;> by_cases hl : md.xmlName ∈ l <;>
      simp [hx, hl, pure, Except.pure, bind, Except.bind]

theorem classifyLoop_of_ok (options : Options) (nw : Option (List String)) (b : Bool)
    (w : MetadataTypeDescriptor → Bool)
    (hinc : ∀ d, includeMetadataType options d = Except.ok b)
    (hw : ∀ d, wildcardTest options nw d = Except.ok (w d))
    (metadataObjects : List MetadataTypeDescriptor) (st : Buckets) :
    classifyLoop options nw metadataObjects st =
      ({ wildcardTypes := st.wildcardTypes ++ metadataObjects.filter (fun d => b && w d)
         typesToQuery := st.typesToQuery ++ metadataObjects.filter (fun d => b && !w d) },
        none) := by
  induction metadataObjects generalizing st with
  | nil => simp [classifyLoop]
  | cons md rest ih =>
    cases b with
    | false => simp [classifyLoop, hinc md, ih]
    | true =>
      cases hwd : w md <;> simp [classifyLoop, hinc md, hw md, hwd, ih]

theorem classifyLoop_of_error (options : Options) (nw : Option (List String)) (e : JsError)
    (hinc : ∀ d, includeMetadataType options d = Except.error e)
    (metadataObjects : List MetadataTypeDescriptor) (st : Buckets) :
    (classifyLoop options nw metadataObjects st).1 = st := by
  cases metadataObjects with
  | nil => simp [classifyLoop]
  | cons md rest => simp [classifyLoop, hinc md]

/-- The routing of the loop in terms of the outcome of `includeMetadataType`.  With a known
API version (the no-wildcard list is `noWildcards`), the loop pushes to `wildcardTypes`
exactly the descriptors for which `includeMetadataType` returned `true` and the wildcard
rule holds, pushes every other such descriptor to `typesToQuery`, and pushes the remaining
descriptors to neither; both buckets keep the catalog order.  When neither `included` nor
`excluded` is set, the loop ends without an exception. -/
theorem classifyLoop_routes (options : Options) (noWildcards : List String)
    (metadataObjects : List MetadataTypeDescriptor) :
    let o := normalizeExcludeManaged options
    let out := classifyLoop o (some noWildcards) metadataObjects {}
    out.1.wildcardTypes =
        metadataObjects.filter (fun d =>
          returnsTrue (includeMetadataType o d) && wildcardRule o noWildcards d) ∧
      out.1.typesToQuery =
        metadataObjects.filter (fun d =>
          returnsTrue (includeMetadataType o d) && !wildcardRule o noWildcards d) ∧
      (o.included = none → o.excluded = none → out.2 = none) := by
  intro o out
  have hne : o.excludeManaged ≠ ExcludeManaged.flag false := normalizeExcludeManaged_ne options
  by_cases h : o.included ≠ none ∨ o.excluded ≠ none
  · have hinc : ∀ d, includeMetadataType o d = Except.error JsError.referenceError :=
      fun d => includeMetadataType_of_set o d h
    have h1 : out.1 = {} := classifyLoop_of_error o _ _ hinc metadataObjects {}
    refine ⟨?_, ?_, ?_⟩
    · simp [h1, hinc, returnsTrue]
    · simp [h1, hinc, returnsTrue]
    · intro hi he
      rcases h with h | h
      · exact absurd hi h
      · exact absurd he h
  · push_neg at h
    have hinc : ∀ d, includeMetadataType o d = Except.ok o.all :=
      fun d => includeMetadataType_of_unset o d h.1 h.2
    have h1 := classifyLoop_of_ok o (some noWildcards) o.all (wildcardRule o noWildcards) hinc
      (fun d => wildcardTest_known o noWildcards d hne) metadataObjects {}
    have h2 : out = _ := h1
    refine ⟨?_, ?_, ?_⟩
    · simp [h2, hinc, returnsTrue]
    · simp [h2, hinc, returnsTrue]
    · intro _ _
      simp [h2]

/-- C2 (code defect).  With `options.included` set to `["ApexClass"]`, wildcards off and a
known API version, the descriptor of `ApexClass` is included by the rule of the
specification and fails the wildcard rule, so it belongs in the itemized query list; the
loop instead ends at the ReferenceError thrown by `includeMetadataType` and pushes the
descriptor to neither bucket. -/
theorem classifyLoop_pushes_nothing_when_included_given :
    inclusionRule (normalizeExcludeManaged { included := some ["ApexClass"] })
        { xmlName := "ApexClass", directoryName := "classes", inFolder := false } = true ∧
      wildcardRule (normalizeExcludeManaged { included := some ["ApexClass"] }) []
        { xmlName := "ApexClass", directoryName := "classes", inFolder := false } = false ∧
      classifyLoop (normalizeExcludeManaged { included := some ["ApexClass"] }) (some [])
          [{ xmlName := "ApexClass", directoryName := "classes", inFolder := false }] {} =
        ({ wildcardTypes := [], typesToQuery := [] }, some JsError.referenceError) :=
  ⟨by decide, by decide, rfl⟩

/-! ## Dictionaries -/

namespace Dict

variable {α : Type}

theorem get?_set_self (d : Dict α) (k : String) (v : α) : (d.set k v).get? k = some v := by
  induction d with
  | nil => simp [set, get?]
  | cons e rest ih =>
    obtain ⟨k', v'⟩ := e
    by_cases h : k' = k <;> simp [set, get?, h, ih]

theorem get?_set_ne (d : Dict α) (k k' : String) (v : α) (h : k' ≠ k) :
    (d.set k v).get? k' = d.get? k' := by
  induction d with
  | nil => simp [set, get?, Ne.symm h]
  | cons e rest ih =>
    obtain ⟨k₀, v₀⟩ := e
    by_cases h₀ : k₀ = k
    · subst h₀
      simp [set, get?, Ne.symm h]
    · by_cases h₁ : k₀ = k'
      · subst h₁
        simp [set, get?, h₀]
      · simp [set, get?, h₀, h₁, ih]

theorem get?_eq_none_iff (d : Dict α) (k : String) : d.get? k = none ↔ k ∉ d.keys := by
  induction d with
  | nil => simp [get?, keys]
  | cons e rest ih =>
    obtain ⟨k₀, v₀⟩ := e
    by_cases h₀ : k₀ = k
    · simp [get?, keys, h₀]
    · simp only [keys] at ih
      simp [get?, keys, h₀, ih, Ne.symm h₀]

theorem mem_of_get? (d : Dict α) (k : String) (v : α) (h : d.get? k = some v) :
    (k, v) ∈ d := by
  induction d with
  | nil => simp [get?] at h
  | cons e rest ih =>
    obtain ⟨k₀, v₀⟩ := e
    by_cases h₀ : k₀ = k
    · simp [get?, h₀] at h
      simp [h₀, h]
    · simp [get?, h₀] at h
      exact List.mem_cons_of_mem _ (ih h)

theorem get?_of_mem (d : Dict α) (hd : d.keys.Nodup) (k : String) (v : α)
    (h : (k, v) ∈ d) : d.get? k = some v := by
  induction d with
  | nil => simp at h
  | cons e rest ih =>
    obtain ⟨k₀, v₀⟩ := e
    simp only [keys, List.map_cons, List.nodup_cons, List.mem_map, not_exists, not_and] at hd
    rcases List.mem_cons.mp h with h | h
    · simp only [Prod.mk.injEq] at h
      simp [get?, h.1, h.2]
    · have hne : k₀ ≠ k := fun hk => hd.1 (k, v) h hk.symm
      simp only [get?, hne, if_false]
      exact ih hd.2 h

theorem keys_set (d : Dict α) (k : String) (v : α) :
    (d.set k v).keys = if k ∈ d.keys then d.keys else d.keys ++ [k] := by
  induction d with
  | nil => simp [set, keys]
  | cons e rest ih =>
    obtain ⟨k₀, v₀⟩ := e
    simp only [keys] at ih
    by_cases h₀ : k₀ = k
    · simp [set, keys, h₀]
    · by_cases hk : k ∈ List.map Prod.fst rest
      · simp [set, keys, h₀, ih, hk]
      · simp [set, keys, h₀, ih, hk, Ne.symm h₀]

theorem mem_keys_set (d : Dict α) (k x : String) (v : α) :
    x ∈ (d.set k v).keys ↔ x = k ∨ x ∈ d.keys := by
  rw [keys_set]
  split
  · constructor
    · exact Or.inr
    · rintro (rfl | h)
      · assumption
      · exact h
  · simp [or_comm]

theorem nodup_keys_set (d : Dict α) (k : String) (v : α) (h : d.keys.Nodup) :
    (d.set k v).keys.Nodup := by
  rw [keys_set]
  split
  · exact h
  · rename_i hk
    exact List.Nodup.append h (List.nodup_singleton k) (by simpa using hk)

theorem push_eq_ok (d : Dict (List α)) (k : String) (x : α) (l : List α)
    (h : d.get? k = some l) : d.push k x = Except.ok (d.set k (l ++ [x])) := by
  simp [push, h]

theorem push_eq_error (d : Dict (List α)) (k : String) (x : α) (h : d.get? k = none) :
    d.push k x = Except.error JsError.typeError := by
  simp [push, h]

theorem keys_of_push (d d' : Dict (List α)) (k : String) (x : α)
    (h : d.push k x = Except.ok d') : d'.keys = d.keys := by
  unfold push at h
  cases hg : d.get? k with
  | none => simp [hg] at h
  | some l =>
    simp only [hg, Except.ok.injEq] at h
    subst h
    rw [keys_set]
    have : k ∈ d.keys := by
      by_contra hk
      rw [← get?_eq_none_iff] at hk
      simp [hk] at hg
    simp [this]

end Dict

/-! ## Batching -/

theorem Batches.filled_empty : Batches.Filled {} [] := by
  simp [Batches.Filled]

theorem Batches.add_filled (b : Batches) (qs : List ListMetadataQuery)
    (q : ListMetadataQuery) (h : b.Filled qs) :
    ∃ b', b.add q = Except.ok b' ∧ b'.Filled (qs ++ [q]) := by
  obtain ⟨hflat, hcount, hlen, hfull, hlast⟩ := h
  unfold Batches.add
  by_cases hc : b.counter % 3 = 0
  · refine ⟨_, by simp [hc, pure, Except.pure]; rfl, ?_⟩
    have hall : ∀ x ∈ b.sets, x.length = 3 := by
      intro x hx
      rcases List.eq_nil_or_concat b.sets with hnil | ⟨L, l, hL⟩
      · simp [hnil] at hx
      · rw [List.concat_eq_append] at hL
        rw [hL] at hx hfull hlast
        simp only [List.dropLast_concat] at hfull
        simp only [List.getLast?_concat, Option.mem_def, Option.some.injEq, forall_eq'] at hlast
        rcases List.mem_append.mp hx with hx | hx
        · exact hfull x hx
        · simp only [List.mem_singleton] at hx
          subst hx
          omega
    refine ⟨?_, ?_, ?_, ?_, ?_⟩
    · simp [hflat]
    · simp [hcount]
    · simp only [List.dropLast_concat, List.length_append, List.length_singleton, hlen,
        List.nil_append]
      omega
    · simpa using hall
    · simp only [List.dropLast_concat, List.nil_append, List.getLast?_concat, Option.mem_def,
        Option.some.injEq, forall_eq', List.length_singleton, List.length_append]
      omega
  · rcases List.eq_nil_or_concat b.sets with hnil | ⟨L, l, hL⟩
    · exfalso
      rw [hnil] at hlen
      simp only [List.length_nil] at hlen
      omega
    · rw [List.concat_eq_append] at hL
      rw [hL] at hflat hlen hfull hlast
      simp only [List.dropLast_concat] at hfull
      simp only [List.getLast?_concat, Option.mem_def, Option.some.injEq, forall_eq'] at hlast
      simp only [List.length_append, List.length_singleton] at hlen
      refine ⟨_, by simp [hc, hL, pure, Except.pure]; rfl, ?_⟩
      refine ⟨?_, ?_, ?_, ?_, ?_⟩
      · simp [← hflat]
      · simp [hcount]
      · simp only [List.length_append, List.length_singleton]
        omega
      · simpa using hfull
      · simp only [List.getLast?_concat, Option.mem_def, Option.some.injEq, forall_eq',
          List.length_append, List.length_singleton]
        omega

theorem Batches.foldlM_add_filled (more : List ListMetadataQuery) (b : Batches)
    (qs : List ListMetadataQuery) (h : b.Filled qs) :
    ∃ b', more.foldlM Batches.add b = Except.ok b' ∧ b'.Filled (qs ++ more) := by
  induction more generalizing b qs with
  | nil => exact ⟨b, by simp [pure, Except.pure], by simpa using h⟩
  | cons q rest ih =>
    obtain ⟨b₁, h₁, hf₁⟩ := Batches.add_filled b qs q h
    obtain ⟨b₂, h₂, hf₂⟩ := ih b₁ (qs ++ [q]) hf₁
    refine ⟨b₂, ?_, by simpa using hf₂⟩
    simp [List.foldlM_cons, h₁, h₂, bind, Except.bind]

theorem Batches.Filled.shape {b : Batches} {qs : List ListMetadataQuery} (h : b.Filled qs) :
    BatchShape b.sets qs.length := by
  obtain ⟨hflat, hcount, hlen, hfull, hlast⟩ := h
  refine ⟨hlen, ?_, hfull, ?_⟩
  · intro x hx
    rcases List.eq_nil_or_concat b.sets with hnil | ⟨L, l, hL⟩
    · simp [hnil] at hx
    · rw [List.concat_eq_append] at hL
      rw [hL] at hx hfull hlast
      simp only [List.dropLast_concat] at hfull
      simp only [List.getLast?_concat, Option.mem_def, Option.some.injEq, forall_eq'] at hlast
      rcases List.mem_append.mp hx with hx | hx
      · have := hfull x hx
        omega
      · simp only [List.mem_singleton] at hx
        subst hx
        omega
  · intro h0
    rw [h0] at hlen
    exact List.length_eq_zero.mp (by simpa using hlen)

/-! ## Query planning (lines 110-135) -/

theorem foldlM_planType (typesToQuery : List MetadataTypeDescriptor) (st : QueryPlan)
    (qs : List ListMetadataQuery) (h : st.listQuerySets.Filled qs) :
    ∃ b, b.Filled (qs ++ typesToQuery.map typeQuery) ∧
      typesToQuery.foldlM planType st = Except.ok
        { listQuerySets := b
          folderNameToType := registerFolders typesToQuery st.folderNameToType
          itemizedTypes := initItemized typesToQuery st.itemizedTypes } := by
  induction typesToQuery generalizing st qs with
  | nil => exact ⟨st.listQuerySets, by simpa using h, by simp [registerFolders, initItemized, pure, Except.pure]⟩
  | cons md rest ih =>
    obtain ⟨b₁, h₁, hf₁⟩ := Batches.add_filled st.listQuerySets qs (typeQuery md) h
    obtain ⟨b₂, hf₂, h₂⟩ := ih
      { listQuerySets := b₁
        folderNameToType :=
          if md.inFolder then st.folderNameToType.set (metaTypeName md) md.xmlName
          else st.folderNameToType
        itemizedTypes := st.itemizedTypes.set md.xmlName [] } (qs ++ [typeQuery md]) hf₁
    refine ⟨b₂, by simpa using hf₂, ?_⟩
    have hstep : planType st md = Except.ok
        { listQuerySets := b₁
          folderNameToType :=
            if md.inFolder then st.folderNameToType.set (metaTypeName md) md.xmlName
            else st.folderNameToType
          itemizedTypes := st.itemizedTypes.set md.xmlName [] } := by
      unfold planType
      unfold typeQuery at h₁
      simp [h₁, bind, Except.bind, pure, Except.pure]
    rw [List.foldlM_cons, hstep]
    simpa [registerFolders, initItemized, bind, Except.bind] using h₂

theorem planQueries_eq (typesToQuery : List MetadataTypeDescriptor) :
    ∃ b, b.Filled (typesToQuery.map typeQuery) ∧
      planQueries typesToQuery = Except.ok
        { listQuerySets := b
          folderNameToType := registerFolders typesToQuery []
          itemizedTypes := initItemized typesToQuery [] } := by
  obtain ⟨b, hb, h⟩ := foldlM_planType typesToQuery {} [] Batches.filled_empty
  exact ⟨b, by simpa using hb, h⟩

theorem mem_keys_initItemized (typesToQuery : List MetadataTypeDescriptor)
    (d : Dict (List MetadataItem)) (k : String) :
    k ∈ (initItemized typesToQuery d).keys ↔
      k ∈ d.keys ∨ k ∈ typesToQuery.map (fun md => md.xmlName) := by
  induction typesToQuery generalizing d with
  | nil => simp [initItemized]
  | cons md rest ih =>
    have := ih (d.set md.xmlName [])
    simp only [initItemized, List.foldl_cons] at this ⊢
    rw [this, Dict.mem_keys_set]
    simp only [List.map_cons, List.mem_cons]
    tauto

theorem nodup_keys_initItemized (typesToQuery : List MetadataTypeDescriptor)
    (d : Dict (List MetadataItem)) (h : d.keys.Nodup) :
    (initItemized typesToQuery d).keys.Nodup := by
  induction typesToQuery generalizing d with
  | nil => simpa [initItemized] using h
  | cons md rest ih =>
    simpa [initItemized] using ih (d.set md.xmlName []) (Dict.nodup_keys_set d _ _ h)

theorem get?_initItemized (typesToQuery : List MetadataTypeDescriptor)
    (d : Dict (List MetadataItem)) (hd : ∀ k l, d.get? k = some l → l = [])
    (k : String) (l : List MetadataItem)
    (h : (initItemized typesToQuery d).get? k = some l) : l = [] := by
  induction typesToQuery generalizing d with
  | nil => exact hd k l (by simpa [initItemized] using h)
  | cons md rest ih =>
    refine ih (d.set md.xmlName []) ?_ (by simpa [initItemized] using h)
    intro k' l' hk'
    by_cases hk : k' = md.xmlName
    · subst hk
      rw [Dict.get?_set_self] at hk'
      exact (Option.some.inj hk').symm
    · rw [Dict.get?_set_ne _ _ _ _ hk] at hk'
      exact hd k' l' hk'

/-- C5.  Flattening the first-pass batches gives one query per itemized descriptor, in the
order of the descriptors: the `xmlName` for a type that is not `inFolder`, `EmailFolder` for
the `inFolder` type `EmailTemplate`, and `xmlName + "Folder"` for any other `inFolder`
type. -/
theorem planQueries_flatten (typesToQuery : List MetadataTypeDescriptor) :
    ∃ plan, planQueries typesToQuery = Except.ok plan ∧
      plan.listQuerySets.sets.flatten =
        typesToQuery.map (fun md =>
          { type :=
              if md.inFolder = false then md.xmlName
              else if md.xmlName = "EmailTemplate" then "EmailFolder"
              else md.xmlName ++ "Folder"
            folder := none }) := by
  obtain ⟨b, hb, h⟩ := planQueries_eq typesToQuery
  refine ⟨_, h, ?_⟩
  rw [hb.1]
  apply List.map_congr_left
  intro md _
  cases hf : md.inFolder <;> simp [typeQuery, metaTypeName, hf]

/-! ## Wildcard and itemized types after classification -/

theorem wildcardTest_congr (options : Options) (nw : Option (List String))
    (d₁ d₂ : MetadataTypeDescriptor) (hx : d₁.xmlName = d₂.xmlName)
    (hd : d₁.directoryName = d₂.directoryName) :
    wildcardTest options nw d₁ = wildcardTest options nw d₂ := by
  unfold wildcardTest
  rw [hx, hd]

theorem classifyLoop_mem (options : Options) (nw : Option (List String))
    (metadataObjects : List MetadataTypeDescriptor) (st : Buckets) :
    (∀ d ∈ (classifyLoop options nw metadataObjects st).1.wildcardTypes,
        d ∈ st.wildcardTypes ∨
          (d ∈ metadataObjects ∧ wildcardTest options nw d = Except.ok true)) ∧
      (∀ d ∈ (classifyLoop options nw metadataObjects st).1.typesToQuery,
        d ∈ st.typesToQuery ∨
          (d ∈ metadataObjects ∧ wildcardTest options nw d = Except.ok false)) := by
  induction metadataObjects generalizing st with
  | nil => simp [classifyLoop]
  | cons md rest ih =>
    unfold classifyLoop
    cases hi : includeMetadataType options md with
    | error e => exact ⟨fun d h => Or.inl h, fun d h => Or.inl h⟩
    | ok b =>
      cases b with
      | false =>
        obtain ⟨h₁, h₂⟩ := ih st
        constructor
        · intro d hd
          rcases h₁ d hd with h | h
          · exact Or.inl h
          · exact Or.inr ⟨List.mem_cons_of_mem _ h.1, h.2⟩
        · intro d hd
          rcases h₂ d hd with h | h
          · exact Or.inl h
          · exact Or.inr ⟨List.mem_cons_of_mem _ h.1, h.2⟩
      | true =>
        cases hw : wildcardTest options nw md with
        | error e => exact ⟨fun d h => Or.inl h, fun d h => Or.inl h⟩
        | ok w =>
          cases w with
          | true =>
            obtain ⟨h₁, h₂⟩ := ih { st with wildcardTypes := st.wildcardTypes ++ [md] }
            constructor
            · intro d hd
              rcases h₁ d hd with h | h
              · rcases List.mem_append.mp h with h | h
                · exact Or.inl h
                · rw [List.mem_singleton] at h
                  subst h
                  exact Or.inr ⟨List.mem_cons_self _ _, hw⟩
              · exact Or.inr ⟨List.mem_cons_of_mem _ h.1, h.2⟩
            · intro d hd
              rcases h₂ d hd with h | h
              · exact Or.inl h
              · exact Or.inr ⟨List.mem_cons_of_mem _ h.1, h.2⟩
          | false =>
            obtain ⟨h₁, h₂⟩ := ih { st with typesToQuery := st.typesToQuery ++ [md] }
            constructor
            · intro d hd
              rcases h₁ d hd with h | h
              · exact Or.inl h
              · exact Or.inr ⟨List.mem_cons_of_mem _ h.1, h.2⟩
            · intro d hd
              rcases h₂ d hd with h | h
              · rcases List.mem_append.mp h with h | h
                · exact Or.inl h
                · rw [List.mem_singleton] at h
                  subst h
                  exact Or.inr ⟨List.mem_cons_self _ _, hw⟩
              · exact Or.inr ⟨List.mem_cons_of_mem _ h.1, h.2⟩

/-- What `classify` leaves: the wildcard bucket of the loop, and either the empty plan (an
exception was thrown) or the plan of the itemized bucket. -/
theorem classify_cases (noWildcardTypesLib : NoWildcardTypesLib) (options : Options)
    (metadataObjects : List MetadataTypeDescriptor) :
    (classify noWildcardTypesLib options metadataObjects).1.wildcardTypes =
        (classifyLoop options (noWildcardTypesLib options.apiVersion)
          metadataObjects {}).1.wildcardTypes ∧
      (((classify noWildcardTypesLib options metadataObjects).1.plan = {} ∧
          (classify noWildcardTypesLib options metadataObjects).2 ≠ none ∧
          (classify noWildcardTypesLib options metadataObjects).2 =
            (classifyLoop options (noWildcardTypesLib options.apiVersion)
              metadataObjects {}).2) ∨
        ((classifyLoop options (noWildcardTypesLib options.apiVersion)
              metadataObjects {}).2 = none ∧
          (classify noWildcardTypesLib options metadataObjects).2 = none ∧
          planQueries (classifyLoop options (noWildcardTypesLib options.apiVersion)
              metadataObjects {}).1.typesToQuery =
            Except.ok (classify noWildcardTypesLib options metadataObjects).1.plan)) := by
  simp only [classify]
  rcases classifyLoop options (noWildcardTypesLib options.apiVersion) metadataObjects {}
    with ⟨buckets, err⟩
  cases err with
  | some e => simp
  | none =>
    obtain ⟨b, _, hplan⟩ := planQueries_eq buckets.typesToQuery
    simp [hplan]

/-- C3 (counterexample).  A catalog listing the type name `Layout` twice, with different
directory names, and `excludeManaged: ["layouts"]` with wildcards enabled: the first
descriptor goes to `wildcardTypes`, the second is itemized, so `Layout` is both the
`xmlName` of a wildcard entry and a key of `itemizedTypes`. -/
theorem classify_same_name_in_both :
    "Layout" ∈
        (classify (fun _ => some [])
          { all := true, useWildcards := true, excludeManaged := ExcludeManaged.names ["layouts"] }
          [{ xmlName := "Layout", directoryName := "layouts", inFolder := false },
           { xmlName := "Layout", directoryName := "pageLayouts", inFolder := false }]
        ).1.wildcardTypes.map (fun d => d.xmlName) ∧
      "Layout" ∈
        (classify (fun _ => some [])
          { all := true, useWildcards := true, excludeManaged := ExcludeManaged.names ["layouts"] }
          [{ xmlName := "Layout", directoryName := "layouts", inFolder := false },
           { xmlName := "Layout", directoryName := "pageLayouts", inFolder := false }]
        ).1.plan.itemizedTypes.keys := by
  decide

/-- C3 (amended).  For every catalog in which descriptors sharing an `xmlName` also share
their `directoryName` (in particular every catalog with pairwise distinct `xmlName`s), every
no-wildcard table and all options, after classification no type name is both the `xmlName`
of an entry of `wildcardTypes` and a key of `itemizedTypes`. -/
theorem classify_wildcard_itemized_disjoint (noWildcardTypesLib : NoWildcardTypesLib)
    (options : Options) (metadataObjects : List MetadataTypeDescriptor)
    (hcat : ∀ d₁ ∈ metadataObjects, ∀ d₂ ∈ metadataObjects,
      d₁.xmlName = d₂.xmlName → d₁.directoryName = d₂.directoryName)
    (name : String) :
    ¬ (name ∈ (classify noWildcardTypesLib options metadataObjects).1.wildcardTypes.map
          (fun d => d.xmlName) ∧
        name ∈ (classify noWildcardTypesLib options metadataObjects).1.plan.itemizedTypes.keys) := by
  rintro ⟨hw, hi⟩
  obtain ⟨hwild, hplan⟩ := classify_cases noWildcardTypesLib options metadataObjects
  obtain ⟨hmw, hmq⟩ := classifyLoop_mem options (noWildcardTypesLib options.apiVersion)
    metadataObjects {}
  rcases hplan with ⟨hempty, _, _⟩ | ⟨_, _, hq⟩
  · rw [hempty] at hi
    simp [Dict.keys] at hi
  · obtain ⟨b, _, hq'⟩ := planQueries_eq
      (classifyLoop options (noWildcardTypesLib options.apiVersion) metadataObjects {}).1.typesToQuery
    rw [hq'] at hq
    rw [← Except.ok.inj hq] at hi
    rw [mem_keys_initItemized] at hi
    simp only [Dict.keys, List.map_nil, List.not_mem_nil, false_or, List.mem_map] at hi
    obtain ⟨d₂, hd₂, hn₂⟩ := hi
    rw [hwild] at hw
    obtain ⟨d₁, hd₁, hn₁⟩ := List.mem_map.mp hw
    rcases hmw d₁ hd₁ with h | ⟨hc₁, ht₁⟩
    · simp at h
    rcases hmq d₂ hd₂ with h | ⟨hc₂, ht₂⟩
    · simp at h
    have hx : d₁.xmlName = d₂.xmlName := hn₁.trans hn₂.symm
    rw [wildcardTest_congr options _ d₁ d₂ hx (hcat d₁ hc₁ d₂ hc₂ hx), ht₂] at ht₁
    simp at ht₁

/-- C3 (witness).  The amended statement at a two-type catalog with distinct names, one
type wildcarded and one itemized. -/
theorem classify_wildcard_itemized_disjoint_witness :
    (∀ d₁ ∈ [({ xmlName := "ApexClass", directoryName := "classes", inFolder := false } :
          MetadataTypeDescriptor),
        { xmlName := "Report", directoryName := "reports", inFolder := true }],
      ∀ d₂ ∈ [({ xmlName := "ApexClass", directoryName := "classes", inFolder := false } :
          MetadataTypeDescriptor),
        { xmlName := "Report", directoryName := "reports", inFolder := true }],
      d₁.xmlName = d₂.xmlName → d₁.directoryName = d₂.directoryName) ∧
    ¬ ("ApexClass" ∈
        (classify (fun _ => some ["Report"])
          { all := true, useWildcards := true, excludeManaged := ExcludeManaged.flag true }
          [{ xmlName := "ApexClass", directoryName := "classes", inFolder := false },
           { xmlName := "Report", directoryName := "reports", inFolder := true }]
        ).1.wildcardTypes.map (fun d => d.xmlName) ∧
      "ApexClass" ∈
        (classify (fun _ => some ["Report"])
          { all := true, useWildcards := true, excludeManaged := ExcludeManaged.flag true }
          [{ xmlName := "ApexClass", directoryName := "classes", inFolder := false },
           { xmlName := "Report", directoryName := "reports", inFolder := true }]
        ).1.plan.itemizedTypes.keys) :=
  ⟨by decide,
    classify_wildcard_itemized_disjoint (fun _ => some ["Report"])
      { all := true, useWildcards := true, excludeManaged := ExcludeManaged.flag true }
      [{ xmlName := "ApexClass", directoryName := "classes", inFolder := false },
       { xmlName := "Report", directoryName := "reports", inFolder := true }]
      (by decide) "ApexClass"⟩

/-! ## Pushing items into `itemizedTypes` -/

theorem pushAll_ok (items : List MetadataItem) (d d' : Dict (List MetadataItem))
    (h : pushAll d items = Except.ok d') :
    d'.keys = d.keys ∧
      (∀ k, d'.get? k = (d.get? k).map (fun l => l ++ items.filter (fun i => i.type = k))) ∧
      ∀ item ∈ items, item.type ∈ d.keys := by
  induction items generalizing d with
  | nil =>
    simp only [pushAll, List.foldlM_nil, pure, Except.pure, Except.ok.injEq] at h
    subst h
    simp
  | cons item rest ih =>
    simp only [pushAll, List.foldlM_cons] at h
    cases hg : d.get? item.type with
    | none => simp [Dict.push_eq_error _ _ _ hg, bind, Except.bind] at h
    | some l =>
      rw [Dict.push_eq_ok _ _ _ _ hg] at h
      simp only [bind, Except.bind] at h
      obtain ⟨hk, hget, hmem⟩ := ih (d.set item.type (l ++ [item])) h
      have hin : item.type ∈ d.keys := by
        by_contra hc
        rw [← Dict.get?_eq_none_iff] at hc
        simp [hc] at hg
      have hkeys : (d.set item.type (l ++ [item])).keys = d.keys := by
        rw [Dict.keys_set]
        simp [hin]
      refine ⟨hk.trans hkeys, ?_, ?_⟩
      · intro k
        rw [hget k]
        by_cases hkk : k = item.type
        · subst hkk
          simp [Dict.get?_set_self, hg]
        · rw [Dict.get?_set_ne _ _ _ _ hkk]
          simp [List.filter_cons, Ne.symm hkk]
      · intro i hi
        rcases List.mem_cons.mp hi with hi | hi
        · subst hi
          exact hin
        · rw [← hkeys]
          exact hmem i hi

theorem pushAll_of_tracked (items : List MetadataItem) (d : Dict (List MetadataItem))
    (h : ∀ item ∈ items, item.type ∈ d.keys) : ∃ d', pushAll d items = Except.ok d' := by
  induction items generalizing d with
  | nil => exact ⟨d, by simp [pushAll, pure, Except.pure]⟩
  | cons item rest ih =>
    have hin : item.type ∈ d.keys := h item (List.mem_cons_self _ _)
    cases hg : d.get? item.type with
    | none =>
      rw [Dict.get?_eq_none_iff] at hg
      exact absurd hin hg
    | some l =>
      have hkeys : (d.set item.type (l ++ [item])).keys = d.keys := by
        rw [Dict.keys_set]
        simp [hin]
      obtain ⟨d', hd'⟩ := ih (d.set item.type (l ++ [item])) (by
        intro i hi
        rw [hkeys]
        exact h i (List.mem_cons_of_mem _ hi))
      refine ⟨d', ?_⟩
      simp only [pushAll, List.foldlM_cons, Dict.push_eq_ok _ _ _ _ hg, bind, Except.bind]
      exact hd'

theorem pushAll_cons (item : MetadataItem) (rest : List MetadataItem)
    (d : Dict (List MetadataItem)) :
    pushAll d (item :: rest) = (d.push item.type item) >>= fun d' => pushAll d' rest := by
  simp [pushAll, List.foldlM_cons]

/-! ## Result handlers (lines 151-200) -/

theorem mem_allItems (listResults : List (Option (List MetadataItem))) (item : MetadataItem) :
    item ∈ allItems listResults ↔ ∃ items, some items ∈ listResults ∧ item ∈ items := by
  simp [allItems, List.mem_flatten, List.mem_filterMap]

theorem foldlM_firstPassItem (options : Options) (folderNameToType : Dict String)
    (items : List MetadataItem) (st : FirstPass) (qs : List ListMetadataQuery)
    (h : st.folderContentQueries.Filled qs) :
    ∃ b, b.Filled (qs ++ items.filterMap (folderQuery? folderNameToType)) ∧
      items.foldlM (firstPassItem options folderNameToType) st =
        (pushAll st.itemizedTypes (admittedFirstPass options folderNameToType items)).map
          (fun it => { folderContentQueries := b, itemizedTypes := it }) := by
  induction items generalizing st qs with
  | nil =>
    exact ⟨st.folderContentQueries, by simpa using h,
      by simp [pushAll, admittedFirstPass, pure, Except.pure, Except.map]⟩
  | cons item rest ih =>
    rw [List.foldlM_cons]
    cases hf : folderNameToType.get? item.type with
    | some contentType =>
      obtain ⟨b₁, h₁, hf₁⟩ := Batches.add_filled st.folderContentQueries qs
        { type := contentType, folder := some item.fullName } h
      obtain ⟨b₂, hf₂, h₂⟩ := ih { st with folderContentQueries := b₁ } _ hf₁
      refine ⟨b₂, by simpa [folderQuery?, hf] using hf₂, ?_⟩
      simp only [firstPassItem, hf, h₁, bind, Except.bind, pure, Except.pure]
      rw [h₂]
      simp [admittedFirstPass, hf]
    | none =>
      cases hinc : includeMetadataItem options item with
      | false =>
        obtain ⟨b₂, hf₂, h₂⟩ := ih st qs h
        refine ⟨b₂, by simpa [folderQuery?, hf] using hf₂, ?_⟩
        have hadm : admittedFirstPass options folderNameToType (item :: rest) =
            admittedFirstPass options folderNameToType rest := by
          simp [admittedFirstPass, hf, hinc]
        rw [hadm, ← h₂]
        simp [firstPassItem, hf, hinc, bind, Except.bind, pure, Except.pure]
      | true =>
        have hadm : admittedFirstPass options folderNameToType (item :: rest) =
            item :: admittedFirstPass options folderNameToType rest := by
          simp [admittedFirstPass, hf, hinc]
        rw [hadm, pushAll_cons]
        cases hp : st.itemizedTypes.push item.type item with
        | error e =>
          obtain ⟨b₂, hf₂⟩ := Batches.foldlM_add_filled
            (rest.filterMap (folderQuery? folderNameToType)) st.folderContentQueries qs h
          refine ⟨b₂, by simpa [folderQuery?, hf] using hf₂.2, ?_⟩
          simp [firstPassItem, hf, hinc, hp, bind, Except.bind, Except.map]
        | ok it₁ =>
          obtain ⟨b₂, hf₂, h₂⟩ := ih { st with itemizedTypes := it₁ } qs h
          refine ⟨b₂, by simpa [folderQuery?, hf] using hf₂, ?_⟩
          simp only [firstPassItem, hf, hinc, hp, bind, Except.bind, pure, Except.pure]
          simpa using h₂

theorem foldlM_firstPassResult (options : Options) (folderNameToType : Dict String)
    (listResults : List (Option (List MetadataItem))) (st : FirstPass) :
    listResults.foldlM (firstPassResult options folderNameToType) st =
      (allItems listResults).foldlM (firstPassItem options folderNameToType) st := by
  induction listResults generalizing st with
  | nil => simp [allItems]
  | cons res rest ih =>
    cases res with
    | none =>
      have : allItems (none :: rest) = allItems rest := by simp [allItems]
      rw [List.foldlM_cons, this, ← ih]
      simp [firstPassResult]
    | some items =>
      have : allItems (some items :: rest) = items ++ allItems rest := by simp [allItems]
      rw [List.foldlM_cons, this, List.foldlM_append]
      simp only [firstPassResult]
      congr
      funext st'
      exact ih st'

/-- The first-pass handler as a whole: the folder-content batches hold the queries of the
folder records in the order returned, and `itemizedTypes` received the other admitted items
in the order returned (or the push of one of them threw). -/
theorem firstPassHandler_eq (options : Options) (folderNameToType : Dict String)
    (itemizedTypes : Dict (List MetadataItem))
    (listResults : List (Option (List MetadataItem))) :
    ∃ b, b.Filled ((allItems listResults).filterMap (folderQuery? folderNameToType)) ∧
      firstPassHandler options folderNameToType itemizedTypes listResults =
        (pushAll itemizedTypes
            (admittedFirstPass options folderNameToType (allItems listResults))).map
          (fun it => { folderContentQueries := b, itemizedTypes := it }) := by
  obtain ⟨b, hb, h⟩ := foldlM_firstPassItem options folderNameToType (allItems listResults)
    { itemizedTypes := itemizedTypes } [] Batches.filled_empty
  refine ⟨b, by simpa using hb, ?_⟩
  rw [firstPassHandler, foldlM_firstPassResult, h]

theorem foldlM_folderContentItem (options : Options) (items : List MetadataItem)
    (itemizedTypes : Dict (List MetadataItem)) :
    items.foldlM (folderContentItem options) itemizedTypes =
      pushAll itemizedTypes (items.filter (includeMetadataItem options)) := by
  induction items generalizing itemizedTypes with
  | nil => simp [pushAll]
  | cons item rest ih =>
    rw [List.foldlM_cons]
    cases hinc : includeMetadataItem options item with
    | false =>
      simp only [folderContentItem, hinc, Bool.false_eq_true, if_false, pure_bind]
      rw [ih]
      simp [List.filter_cons, hinc]
    | true =>
      have : (item :: rest).filter (includeMetadataItem options) =
          item :: rest.filter (includeMetadataItem options) := by
        simp [List.filter_cons, hinc]
      rw [this, pushAll_cons]
      simp only [folderContentItem, hinc, if_true]
      congr
      funext d'
      exact ih d'

/-- The folder-content handler as a whole: `itemizedTypes` received the admitted content
items in the order returned (or the push of one of them threw). -/
theorem folderContentHandler_eq (options : Options)
    (listResults : List (Option (List MetadataItem)))
    (itemizedTypes : Dict (List MetadataItem)) :
    folderContentHandler options itemizedTypes listResults =
      pushAll itemizedTypes ((allItems listResults).filter (includeMetadataItem options)) := by
  rw [← foldlM_folderContentItem]
  unfold folderContentHandler
  induction listResults generalizing itemizedTypes with
  | nil => simp [allItems]
  | cons res rest ih =>
    cases res with
    | none =>
      have : allItems (none :: rest) = allItems rest := by simp [allItems]
      rw [List.foldlM_cons, this, ← ih]
      simp [folderContentResult]
    | some items =>
      have : allItems (some items :: rest) = items ++ allItems rest := by simp [allItems]
      rw [List.foldlM_cons, this, List.foldlM_append]
      simp only [folderContentResult]
      congr
      funext d'
      exact ih d'

/-! ## The two batching rounds -/

theorem length_filterMap_folderQuery? (folderNameToType : Dict String)
    (items : List MetadataItem) :
    (items.filterMap (folderQuery? folderNameToType)).length =
      (items.filter (fun item => (folderNameToType.get? item.type).isSome)).length := by
  induction items with
  | nil => simp
  | cons item rest ih =>
    cases hf : folderNameToType.get? item.type <;>
      simp [List.filterMap_cons, List.filter_cons, folderQuery?, hf, ih]

theorem firstPassHandler_ok_of_tracked (options : Options) (folderNameToType : Dict String)
    (itemizedTypes : Dict (List MetadataItem))
    (listResults : List (Option (List MetadataItem)))
    (htracked : ∀ item ∈ allItems listResults,
      folderNameToType.get? item.type = none → includeMetadataItem options item = true →
        item.type ∈ itemizedTypes.keys) :
    ∃ fp, firstPassHandler options folderNameToType itemizedTypes listResults = Except.ok fp ∧
      fp.folderContentQueries.Filled
        ((allItems listResults).filterMap (folderQuery? folderNameToType)) := by
  obtain ⟨b, hb, h⟩ := firstPassHandler_eq options folderNameToType itemizedTypes listResults
  obtain ⟨it, hit⟩ := pushAll_of_tracked
    (admittedFirstPass options folderNameToType (allItems listResults)) itemizedTypes (by
      intro item hitem
      simp only [admittedFirstPass, List.mem_filter, Bool.and_eq_true,
        Option.isNone_iff_eq_none] at hitem
      exact htracked item hitem.1 hitem.2.1 hitem.2.2)
  refine ⟨{ folderContentQueries := b, itemizedTypes := it }, ?_, hb⟩
  rw [h, hit]
  rfl

theorem firstPassHandler_filled (options : Options) (folderNameToType : Dict String)
    (itemizedTypes : Dict (List MetadataItem))
    (listResults : List (Option (List MetadataItem))) (fp : FirstPass)
    (h : firstPassHandler options folderNameToType itemizedTypes listResults = Except.ok fp) :
    fp.folderContentQueries.Filled
        ((allItems listResults).filterMap (folderQuery? folderNameToType)) ∧
      pushAll itemizedTypes
          (admittedFirstPass options folderNameToType (allItems listResults)) =
        Except.ok fp.itemizedTypes := by
  obtain ⟨b, hb, heq⟩ := firstPassHandler_eq options folderNameToType itemizedTypes listResults
  rw [heq] at h
  cases hp : pushAll itemizedTypes
      (admittedFirstPass options folderNameToType (allItems listResults)) with
  | error e => simp [hp, Except.map] at h
  | ok it =>
    simp only [hp, Except.map, Except.ok.injEq] at h
    subst h
    exact ⟨hb, rfl⟩

/-- C6.  In the first round the `L` itemized descriptors are grouped into `ceil(L/3)`
batches of 1 to 3 queries, all but the last of exactly 3, and no batch for `L = 0`.  In the
second round the same holds for the batches of folder-content queries built by the
first-pass handler, `L` being the number of folder records returned; the handler builds them
whenever every other admitted item has a type tracked in `itemizedTypes`. -/
theorem batch_rounds_shape (typesToQuery : List MetadataTypeDescriptor) (options : Options)
    (folderNameToType : Dict String) (itemizedTypes : Dict (List MetadataItem))
    (listResults : List (Option (List MetadataItem))) :
    (∃ plan, planQueries typesToQuery = Except.ok plan ∧
        BatchShape plan.listQuerySets.sets typesToQuery.length) ∧
      (∀ fp, firstPassHandler options folderNameToType itemizedTypes listResults = Except.ok fp →
        BatchShape fp.folderContentQueries.sets
          ((allItems listResults).filter
            (fun item => (folderNameToType.get? item.type).isSome)).length) ∧
      ((∀ item ∈ allItems listResults,
          folderNameToType.get? item.type = none → includeMetadataItem options item = true →
            item.type ∈ itemizedTypes.keys) →
        ∃ fp, firstPassHandler options folderNameToType itemizedTypes listResults
          = Except.ok fp) := by
  refine ⟨?_, ?_, ?_⟩
  · obtain ⟨b, hb, h⟩ := planQueries_eq typesToQuery
    refine ⟨_, h, ?_⟩
    simpa using hb.shape
  · intro fp h
    have hf := (firstPassHandler_filled options folderNameToType itemizedTypes listResults fp h).1
    rw [← length_filterMap_folderQuery?]
    exact hf.shape
  · intro htracked
    obtain ⟨fp, h, _⟩ := firstPassHandler_ok_of_tracked options folderNameToType itemizedTypes
      listResults htracked
    exact ⟨fp, h⟩

/-- C7 (counterexample).  A first-pass result holding an unmanaged item of the untracked
type `Dashboard` before the folder record `MyFolder`: pushing the first item throws, so the
handler produces no query plan, in particular none holding the query for `MyFolder`. -/
theorem firstPassHandler_untracked_type_no_plan :
    ¬ ∃ fp,
      firstPassHandler { all := true, excludeManaged := ExcludeManaged.names [] }
          [("ReportFolder", "Report")] [("Report", [])]
          [some [{ fullName := "Sales", type := "Dashboard", manageableState := "unmanaged" },
                 { fullName := "MyFolder", type := "ReportFolder",
                   manageableState := "unmanaged" }]]
        = Except.ok fp ∧
      fp.folderContentQueries.sets.flatten = [{ type := "Report", folder := some "MyFolder" }] := by
  rintro ⟨fp, h, _⟩
  have herr : firstPassHandler { all := true, excludeManaged := ExcludeManaged.names [] }
      [("ReportFolder", "Report")] [("Report", [])]
      [some [{ fullName := "Sales", type := "Dashboard", manageableState := "unmanaged" },
             { fullName := "MyFolder", type := "ReportFolder",
               manageableState := "unmanaged" }]]
      = Except.error JsError.typeError := by
    rfl
  rw [herr] at h
  cases h

/-- C7 (amended).  For every sequence of first-pass listing results in which every item
that is not a folder record and passes the item filter has a type that is a key of
`itemizedTypes`, the handler completes and the flattened folder-content query plan is the
list of the queries `{type: folderNameToType[item.type], folder: item.fullName}` of the
returned items whose type is a key of `folderNameToType`, in the order returned, with no
query for any other item. -/
theorem firstPassHandler_query_plan (options : Options) (folderNameToType : Dict String)
    (itemizedTypes : Dict (List MetadataItem))
    (listResults : List (Option (List MetadataItem)))
    (htracked : ∀ item ∈ allItems listResults,
      folderNameToType.get? item.type = none → includeMetadataItem options item = true →
        item.type ∈ itemizedTypes.keys) :
    ∃ fp, firstPassHandler options folderNameToType itemizedTypes listResults = Except.ok fp ∧
      fp.folderContentQueries.sets.flatten =
        (allItems listResults).filterMap (fun item =>
          (folderNameToType.get? item.type).map
            (fun contentType => { type := contentType, folder := some item.fullName })) := by
  obtain ⟨fp, h, hf⟩ := firstPassHandler_ok_of_tracked options folderNameToType itemizedTypes
    listResults htracked
  exact ⟨fp, h, hf.1⟩

/-- C7 (witness).  Two result sets, the second empty, with two folder records around an
ordinary item. -/
theorem firstPassHandler_query_plan_witness :
    (∀ item ∈ allItems
        [some [{ fullName := "FolderA", type := "ReportFolder", manageableState := "unmanaged" },
               { fullName := "Foo", type := "ApexClass", manageableState := "unmanaged" }],
         none,
         some [{ fullName := "FolderB", type := "ReportFolder", manageableState := "installed" }]],
      Dict.get? [("ReportFolder", "Report")] item.type = none →
        includeMetadataItem { all := true, excludeManaged := ExcludeManaged.flag true } item
          = true →
        item.type ∈ Dict.keys [("ApexClass", ([] : List MetadataItem)), ("Report", [])]) ∧
    ∃ fp,
      firstPassHandler { all := true, excludeManaged := ExcludeManaged.flag true }
          [("ReportFolder", "Report")] [("ApexClass", []), ("Report", [])]
          [some [{ fullName := "FolderA", type := "ReportFolder", manageableState := "unmanaged" },
                 { fullName := "Foo", type := "ApexClass", manageableState := "unmanaged" }],
           none,
           some [{ fullName := "FolderB", type := "ReportFolder", manageableState := "installed" }]]
        = Except.ok fp ∧
      fp.folderContentQueries.sets.flatten =
        (allItems
          [some [{ fullName := "FolderA", type := "ReportFolder", manageableState := "unmanaged" },
                 { fullName := "Foo", type := "ApexClass", manageableState := "unmanaged" }],
           none,
           some [{ fullName := "FolderB", type := "ReportFolder",
                   manageableState := "installed" }]]).filterMap (fun item =>
          (Dict.get? [("ReportFolder", "Report")] item.type).map
            (fun contentType => { type := contentType, folder := some item.fullName })) :=
  ⟨by decide,
    firstPassHandler_query_plan { all := true, excludeManaged := ExcludeManaged.flag true }
      [("ReportFolder", "Report")] [("ApexClass", []), ("Report", [])] _ (by decide)⟩

/-! ## Rendering of the itemized sections (lines 207-221) -/

theorem forInEntries_perm {α : Type} (obj : Dict α) : (forInEntries obj).Perm obj := by
  unfold forInEntries
  exact ((List.perm_insertionSort _ _).append_right _).trans
    (List.filter_append_perm (fun e => isArrayIndex e.1) obj)

theorem name_mem_itemizedSection (itemType k : String) (itemList : List MetadataItem) :
    ({ name := "name", text := k } : XmlLeaf) ∈ (itemizedSection itemType itemList).children ↔
      itemType = k := by
  simp [itemizedSection, eq_comm]

theorem filter_sections_of_nodup (m : Dict (List MetadataItem)) (hm : m.keys.Nodup)
    (k : String) :
    (m.filterMap (fun (e : String × List MetadataItem) =>
        if e.2.length = 0 then none else some (itemizedSection e.1 e.2))).filter
        (fun s => decide (({ name := "name", text := k } : XmlLeaf) ∈ s.children)) =
      match m.get? k with
      | some l => if l.length = 0 then [] else [itemizedSection k l]
      | none => [] := by
  induction m with
  | nil => simp [Dict.get?]
  | cons e rest ih =>
    obtain ⟨k₀, l₀⟩ := e
    simp only [Dict.keys, List.map_cons, List.nodup_cons] at hm
    have ih' := ih hm.2
    by_cases hk : k₀ = k
    · subst hk
      have hnone : Dict.get? rest k₀ = none := (Dict.get?_eq_none_iff rest k₀).mpr hm.1
      rw [hnone] at ih'
      by_cases hl : l₀.length = 0
      · simp only [List.filterMap_cons, hl, if_true, Dict.get?]
        exact ih'
      · simp only [List.filterMap_cons, hl, if_false, Dict.get?, if_true, List.filter_cons,
          name_mem_itemizedSection, decide_True]
        rw [ih']
    · have hget : Dict.get? ((k₀, l₀) :: rest) k = Dict.get? rest k := by
        simp [Dict.get?, hk]
      rw [hget, ← ih']
      by_cases hl : l₀.length = 0
      · simp only [List.filterMap_cons, hl, if_true]
      · simp only [List.filterMap_cons, hl, if_false, List.filter_cons,
          name_mem_itemizedSection, hk, decide_False, Bool.false_eq_true]

/-- C10.  For every `itemizedTypes` map (an object: its keys are pairwise distinct) and every
type name `k`: when `itemizedTypes[k]` is absent or an empty list, no section emitted by the
itemized loop is named `k`; when it is a non-empty list, exactly one emitted section is named
`k`, and it holds one `members` element per item, in order, followed by the `name`. -/
theorem itemizedSections_named (itemizedTypes : Dict (List MetadataItem))
    (hobj : itemizedTypes.keys.Nodup) (k : String) :
    ((itemizedTypes.get? k = none ∨ itemizedTypes.get? k = some []) →
        ∀ s ∈ itemizedSections itemizedTypes,
          ({ name := "name", text := k } : XmlLeaf) ∉ s.children) ∧
      (∀ item rest, itemizedTypes.get? k = some (item :: rest) →
        (itemizedSections itemizedTypes).filter
            (fun s => decide (({ name := "name", text := k } : XmlLeaf) ∈ s.children)) =
          [{ name := "types"
             children :=
               (item :: rest).map (fun i => { name := "members", text := i.fullName })
                 ++ [{ name := "name", text := k }] }]) := by
  have hperm : ((itemizedSections itemizedTypes).filter
      (fun s => decide (({ name := "name", text := k } : XmlLeaf) ∈ s.children))).Perm
      (match itemizedTypes.get? k with
      | some l => if l.length = 0 then [] else [itemizedSection k l]
      | none => []) := by
    rw [← filter_sections_of_nodup itemizedTypes hobj k]
    exact ((forInEntries_perm itemizedTypes).filterMap _).filter _
  constructor
  · intro h s hs hmem
    have hnil : (itemizedSections itemizedTypes).filter
        (fun s => decide (({ name := "name", text := k } : XmlLeaf) ∈ s.children)) = [] := by
      rcases h with h | h <;> simpa [h] using hperm
    have : s ∈ (itemizedSections itemizedTypes).filter
        (fun s => decide (({ name := "name", text := k } : XmlLeaf) ∈ s.children)) :=
      List.mem_filter.mpr ⟨hs, by simpa using hmem⟩
    rw [hnil] at this
    simp at this
  · intro item rest h
    rw [h] at hperm
    simpa [itemizedSection] using hperm

/-! ## The inventory of a completed run -/

theorem listAll_mem (listMetadata : ListMetadata) (asOfVersion : String)
    (sets : List (List ListMetadataQuery)) (results : List (Option (List MetadataItem)))
    (h : listAll listMetadata asOfVersion sets = Except.ok results) :
    ∀ res ∈ results, ∃ queries ∈ sets, listMetadata queries asOfVersion = Except.ok res := by
  induction sets generalizing results with
  | nil =>
    simp only [listAll, pure, Except.pure, Except.ok.injEq] at h
    subst h
    simp
  | cons queries rest ih =>
    simp only [listAll, bind, Except.bind, pure, Except.pure] at h
    cases h₁ : listMetadata queries asOfVersion with
    | error e => simp [h₁] at h
    | ok r =>
      cases h₂ : listAll listMetadata asOfVersion rest with
      | error e => simp [h₁, h₂] at h
      | ok rs =>
        simp only [h₁, h₂, Except.ok.injEq] at h
        subst h
        intro res hres
        rcases List.mem_cons.mp hres with hres | hres
        · subst hres
          exact ⟨queries, List.mem_cons_self _ _, h₁⟩
        · obtain ⟨q, hq, hres'⟩ := ih rs h₂ res hres
          exact ⟨q, List.mem_cons_of_mem _ hq, hres'⟩

/-- The stages of a run that produced an inventory. -/
theorem resolveInventory_stages (noWildcardTypesLib : NoWildcardTypesLib)
    (listMetadata : ListMetadata) (options : Options)
    (metadataObjects : List MetadataTypeDescriptor) (inventory : Inventory)
    (h : resolveInventory noWildcardTypesLib listMetadata options metadataObjects
      = Except.ok inventory) :
    ∃ plan listResults firstPass contentResults,
      classify noWildcardTypesLib options metadataObjects =
          ({ wildcardTypes := inventory.wildcardTypes, plan := plan }, none) ∧
        listAll listMetadata options.apiVersion plan.listQuerySets.sets
          = Except.ok listResults ∧
        firstPassHandler options plan.folderNameToType plan.itemizedTypes listResults
          = Except.ok firstPass ∧
        listAll listMetadata options.apiVersion firstPass.folderContentQueries.sets
          = Except.ok contentResults ∧
        folderContentHandler options firstPass.itemizedTypes contentResults
          = Except.ok inventory.itemizedTypes := by
  unfold resolveInventory at h
  rcases hc : classify noWildcardTypesLib options metadataObjects with ⟨c, err⟩
  rw [hc] at h
  cases err with
  | some e => simp at h
  | none =>
    simp only [bind, Except.bind, pure, Except.pure] at h
    cases h₁ : listAll listMetadata options.apiVersion c.plan.listQuerySets.sets with
    | error e => simp [h₁] at h
    | ok listResults =>
      simp only [h₁] at h
      cases h₂ : firstPassHandler options c.plan.folderNameToType c.plan.itemizedTypes
          listResults with
      | error e => simp [h₂] at h
      | ok firstPass =>
        simp only [h₂] at h
        cases h₃ : listAll listMetadata options.apiVersion
            firstPass.folderContentQueries.sets with
        | error e => simp [h₃] at h
        | ok contentResults =>
          simp only [h₃] at h
          cases h₄ : folderContentHandler options firstPass.itemizedTypes contentResults with
          | error e => simp [h₄] at h
          | ok itemizedTypes =>
            simp only [h₄, Except.ok.injEq] at h
            subst h
            exact ⟨c.plan, listResults, firstPass, contentResults, rfl, h₁, h₂, h₃, h₄⟩

/-- The plan of a classification that ended without exception. -/
theorem classify_plan (noWildcardTypesLib : NoWildcardTypesLib) (options : Options)
    (metadataObjects : List MetadataTypeDescriptor) (c : Classified)
    (h : classify noWildcardTypesLib options metadataObjects = (c, none)) :
    ∃ typesToQuery, planQueries typesToQuery = Except.ok c.plan ∧
      c.plan.itemizedTypes = initItemized typesToQuery [] ∧
      c.plan.folderNameToType = registerFolders typesToQuery [] := by
  obtain ⟨_, hplan⟩ := classify_cases noWildcardTypesLib options metadataObjects
  rw [h] at hplan
  rcases hplan with ⟨_, hne, _⟩ | ⟨_, _, hq⟩
  · exact absurd rfl hne
  · refine ⟨_, hq, ?_⟩
    obtain ⟨b, _, hq'⟩ := planQueries_eq
      (classifyLoop options (noWildcardTypesLib options.apiVersion) metadataObjects {}).1.typesToQuery
    rw [hq'] at hq
    rw [← Except.ok.inj hq]
    exact ⟨rfl, rfl⟩

/-- The item lists of a completed run: the keys of `itemizedTypes` are pairwise distinct,
and the list of a type holds the admitted first-pass items of that type followed by the
admitted folder-content items of that type, each in the order returned. -/
theorem inventory_items (noWildcardTypesLib : NoWildcardTypesLib)
    (listMetadata : ListMetadata) (options : Options)
    (metadataObjects : List MetadataTypeDescriptor) (inventory : Inventory)
    (h : resolveInventory noWildcardTypesLib listMetadata options metadataObjects
      = Except.ok inventory) :
    ∃ plan listResults firstPass contentResults,
      classify noWildcardTypesLib options metadataObjects =
          ({ wildcardTypes := inventory.wildcardTypes, plan := plan }, none) ∧
        listAll listMetadata options.apiVersion plan.listQuerySets.sets
          = Except.ok listResults ∧
        firstPassHandler options plan.folderNameToType plan.itemizedTypes listResults
          = Except.ok firstPass ∧
        listAll listMetadata options.apiVersion firstPass.folderContentQueries.sets
          = Except.ok contentResults ∧
        inventory.itemizedTypes.keys = plan.itemizedTypes.keys ∧
        inventory.itemizedTypes.keys.Nodup ∧
        ∀ k l, inventory.itemizedTypes.get? k = some l →
          l = (admittedFirstPass options plan.folderNameToType (allItems listResults)).filter
                (fun i => i.type = k)
              ++ ((allItems contentResults).filter (includeMetadataItem options)).filter
                (fun i => i.type = k) := by
  obtain ⟨plan, listResults, firstPass, contentResults, hc, h₁, h₂, h₃, h₄⟩ :=
    resolveInventory_stages noWildcardTypesLib listMetadata options metadataObjects inventory h
  obtain ⟨typesToQuery, _, hinit, _⟩ := classify_plan noWildcardTypesLib options
    metadataObjects _ hc
  simp only at hinit
  obtain ⟨hk₁, hg₁, _⟩ := pushAll_ok _ _ _
    (firstPassHandler_filled options plan.folderNameToType plan.itemizedTypes listResults
      firstPass h₂).2
  rw [folderContentHandler_eq] at h₄
  obtain ⟨hk₂, hg₂, _⟩ := pushAll_ok _ _ _ h₄
  have hnodup : plan.itemizedTypes.keys.Nodup := by
    rw [hinit]
    exact nodup_keys_initItemized typesToQuery [] (by simp [Dict.keys])
  refine ⟨plan, listResults, firstPass, contentResults, hc, h₁, h₂, h₃, hk₂.trans hk₁,
    by rw [hk₂, hk₁]; exact hnodup, ?_⟩
  intro k l hl
  rw [hg₂ k, hg₁ k] at hl
  cases h₀ : plan.itemizedTypes.get? k with
  | none => simp [h₀] at hl
  | some l₀ =>
    have hl₀ : l₀ = [] := by
      rw [hinit] at h₀
      exact get?_initItemized typesToQuery [] (by simp [Dict.get?]) k l₀ h₀
    subst hl₀
    simp only [h₀, Option.map_some', List.nil_append, Option.some.injEq] at hl
    exact hl.symm

/-! ## End-to-end scenario -/

/-- C8.  Catalog `[ApexClass, Report (inFolder)]`, config `{all: true, useWildcards: false}`,
first-pass listing returning the unmanaged items `Foo` (ApexClass) and `MyFolder`
(ReportFolder), folder-content listing for `MyFolder` returning the unmanaged item
`MyFolder/MyReport` (Report): the chain resolves to the document with exactly the sections
`ApexClass` (member `Foo`) and `Report` (member `MyFolder/MyReport`), in this order, followed
by the `version` element holding the API version. -/
theorem scenario_document (noWildcardTypesLib : NoWildcardTypesLib)
    (listMetadata : ListMetadata) (apiVersion classesDir reportsDir : String)
    (hfirst : listMetadata [{ type := "ApexClass" }, { type := "ReportFolder" }] apiVersion =
      Except.ok (some
        [{ fullName := "Foo", type := "ApexClass", manageableState := "unmanaged" },
         { fullName := "MyFolder", type := "ReportFolder", manageableState := "unmanaged" }]))
    (hcontent : listMetadata [{ type := "Report", folder := some "MyFolder" }] apiVersion =
      Except.ok (some
        [{ fullName := "MyFolder/MyReport", type := "Report",
           manageableState := "unmanaged" }])) :
    buildPackage noWildcardTypesLib listMetadata
        (normalizeExcludeManaged
          { all := true, useWildcards := false, apiVersion := apiVersion })
        [{ xmlName := "ApexClass", directoryName := classesDir, inFolder := false },
         { xmlName := "Report", directoryName := reportsDir, inFolder := true }] =
      Except.ok
        { root := "Package"
          encoding := "UTF-8"
          xmlns := "http://soap.sforce.com/2006/04/metadata"
          children :=
            [{ name := "types"
               children := [{ name := "members", text := "Foo" },
                            { name := "name", text := "ApexClass" }] },
             { name := "types"
               children := [{ name := "members", text := "MyFolder/MyReport" },
                            { name := "name", text := "Report" }] },
             { name := "version", text := some apiVersion }] } := by
  have hc : classify noWildcardTypesLib
      (normalizeExcludeManaged { all := true, useWildcards := false, apiVersion := apiVersion })
      [{ xmlName := "ApexClass", directoryName := classesDir, inFolder := false },
       { xmlName := "Report", directoryName := reportsDir, inFolder := true }] =
      ({ wildcardTypes := []
         plan :=
          { listQuerySets :=
              { sets := [[{ type := "ApexClass" }, { type := "ReportFolder" }]], counter := 2 }
            folderNameToType := [("ReportFolder", "Report")]
            itemizedTypes := [("ApexClass", []), ("Report", [])] } }, none) := rfl
  have hv : (normalizeExcludeManaged
      { all := true, useWildcards := false, apiVersion := apiVersion }).apiVersion
      = apiVersion := rfl
  have hl₁ : listAll listMetadata apiVersion
      [[{ type := "ApexClass" }, { type := "ReportFolder" }]] =
      Except.ok [some
        [{ fullName := "Foo", type := "ApexClass", manageableState := "unmanaged" },
         { fullName := "MyFolder", type := "ReportFolder", manageableState := "unmanaged" }]] := by
    simp [listAll, hfirst, bind, Except.bind, pure, Except.pure]
  have hl₂ : listAll listMetadata apiVersion
      [[{ type := "Report", folder := some "MyFolder" }]] =
      Except.ok [some
        [{ fullName := "MyFolder/MyReport", type := "Report",
           manageableState := "unmanaged" }]] := by
    simp [listAll, hcontent, bind, Except.bind, pure, Except.pure]
  have hfp : firstPassHandler
      (normalizeExcludeManaged { all := true, useWildcards := false, apiVersion := apiVersion })
      [("ReportFolder", "Report")] [("ApexClass", []), ("Report", [])]
      [some
        [{ fullName := "Foo", type := "ApexClass", manageableState := "unmanaged" },
         { fullName := "MyFolder", type := "ReportFolder", manageableState := "unmanaged" }]] =
      Except.ok
        { folderContentQueries :=
            { sets := [[{ type := "Report", folder := some "MyFolder" }]], counter := 1 }
          itemizedTypes :=
            [("ApexClass",
                [{ fullName := "Foo", type := "ApexClass", manageableState := "unmanaged" }]),
              ("Report", [])] } := rfl
  unfold buildPackage resolveInventory
  rw [hc]
  simp only [hv, hl₁, bind, Except.bind]
  rw [hfp]
  simp only [hl₂]
  rfl

/-- C8 (witness).  The scenario with the mocked list interface, API version 44.0 and the
directory names `classes` and `reports`. -/
theorem scenario_document_witness :
    scenarioListMetadata [{ type := "ApexClass" }, { type := "ReportFolder" }] "44.0" =
        Except.ok (some
          [{ fullName := "Foo", type := "ApexClass", manageableState := "unmanaged" },
           { fullName := "MyFolder", type := "ReportFolder",
             manageableState := "unmanaged" }]) ∧
      scenarioListMetadata [{ type := "Report", folder := some "MyFolder" }] "44.0" =
        Except.ok (some
          [{ fullName := "MyFolder/MyReport", type := "Report",
             manageableState := "unmanaged" }]) ∧
      buildPackage (fun _ => none) scenarioListMetadata
          (normalizeExcludeManaged { all := true, useWildcards := false, apiVersion := "44.0" })
          [{ xmlName := "ApexClass", directoryName := "classes", inFolder := false },
           { xmlName := "Report", directoryName := "reports", inFolder := true }] =
        Except.ok
          { root := "Package"
            encoding := "UTF-8"
            xmlns := "http://soap.sforce.com/2006/04/metadata"
            children :=
              [{ name := "types"
                 children := [{ name := "members", text := "Foo" },
                              { name := "name", text := "ApexClass" }] },
               { name := "types"
                 children := [{ name := "members", text := "MyFolder/MyReport" },
                              { name := "name", text := "Report" }] },
               { name := "version", text := some "44.0" }] } :=
  ⟨rfl, rfl,
    scenario_document (fun _ => none) scenarioListMetadata "44.0" "classes" "reports" rfl rfl⟩

/-! ## Managed items -/

theorem includeMetadataItem_of_excludeAll (options : Options) (item : MetadataItem)
    (hem : options.excludeManaged = ExcludeManaged.flag true)
    (h : includeMetadataItem options item = true) : item.manageableState = "unmanaged" := by
  by_contra hne
  have := (includeMetadataItem_eq_false_of_managed options item hne (Or.inl hem))
  rw [this] at h
  cases h

theorem listed_of_mem_allItems (listMetadata : ListMetadata) (asOfVersion : String)
    (sets : List (List ListMetadataQuery)) (results : List (Option (List MetadataItem)))
    (h : listAll listMetadata asOfVersion sets = Except.ok results) (item : MetadataItem)
    (hitem : item ∈ allItems results) : Listed listMetadata asOfVersion item := by
  obtain ⟨items, hres, hmem⟩ := (mem_allItems results item).mp hitem
  obtain ⟨queries, _, hq⟩ := listAll_mem listMetadata asOfVersion sets results h _ hres
  exact ⟨queries, items, hq, hmem⟩

/-- C9.  With `excludeManaged: true`, whenever the chain resolves to a document, every
`members` entry of a section emitted by the itemized loop is the `fullName` of an item that
was returned by the list interface, has the type naming the section, and whose
`manageableState` is `unmanaged`. -/
theorem rendered_members_unmanaged (noWildcardTypesLib : NoWildcardTypesLib)
    (listMetadata : ListMetadata) (options : Options)
    (metadataObjects : List MetadataTypeDescriptor) (doc : PackageDocument)
    (hem : options.excludeManaged = ExcludeManaged.flag true)
    (hdoc : buildPackage noWildcardTypesLib listMetadata options metadataObjects
      = Except.ok doc) :
    ∃ inventory,
      resolveInventory noWildcardTypesLib listMetadata options metadataObjects
          = Except.ok inventory ∧
        doc = renderPackage options inventory.itemizedTypes inventory.wildcardTypes ∧
        ∀ s ∈ itemizedSections inventory.itemizedTypes, ∀ leaf ∈ s.children,
          leaf.name = "members" →
            ∃ item, Listed listMetadata options.apiVersion item ∧
              item.manageableState = "unmanaged" ∧ item.fullName = leaf.text ∧
              ({ name := "name", text := item.type } : XmlLeaf) ∈ s.children := by
  unfold buildPackage at hdoc
  cases hinv : resolveInventory noWildcardTypesLib listMetadata options metadataObjects with
  | error e => simp [hinv, bind, Except.bind] at hdoc
  | ok inventory =>
    simp only [hinv, bind, Except.bind, pure, Except.pure, Except.ok.injEq] at hdoc
    refine ⟨inventory, rfl, hdoc.symm, ?_⟩
    obtain ⟨plan, listResults, firstPass, contentResults, _, h₁, _, h₃, _, hnodup, hitems⟩ :=
      inventory_items noWildcardTypesLib listMetadata options metadataObjects inventory hinv
    intro s hs leaf hleaf hname
    simp only [itemizedSections, List.mem_filterMap] at hs
    obtain ⟨⟨k, l⟩, hkl, hsec⟩ := hs
    have hmem : (k, l) ∈ inventory.itemizedTypes :=
      (forInEntries_perm inventory.itemizedTypes).mem_iff.mp hkl
    have hget := Dict.get?_of_mem inventory.itemizedTypes hnodup k l hmem
    have hl := hitems k l hget
    by_cases hlen : l.length = 0
    · simp [hlen] at hsec
    · simp only [hlen, if_false, Option.some.injEq] at hsec
      subst hsec
      simp only [itemizedSection, List.mem_append, List.mem_map, List.mem_singleton] at hleaf
      rcases hleaf with ⟨item, hitem, rfl⟩ | rfl
      · refine ⟨item, ?_, ?_, rfl, ?_⟩
        · rw [hl] at hitem
          rcases List.mem_append.mp hitem with hi | hi
          · simp only [admittedFirstPass, List.mem_filter] at hi
            exact listed_of_mem_allItems listMetadata _ _ _ h₁ item hi.1.1
          · simp only [List.mem_filter] at hi
            exact listed_of_mem_allItems listMetadata _ _ _ h₃ item hi.1.1
        · rw [hl] at hitem
          rcases List.mem_append.mp hitem with hi | hi
          · simp only [admittedFirstPass, List.mem_filter, Bool.and_eq_true] at hi
            exact includeMetadataItem_of_excludeAll options item hem hi.1.2.2
          · simp only [List.mem_filter] at hi
            exact includeMetadataItem_of_excludeAll options item hem hi.1.2
        · have htype : item.type = k := by
            rw [hl] at hitem
            rcases List.mem_append.mp hitem with hi | hi
            · simpa using (List.mem_filter.mp hi).2
            · simpa using (List.mem_filter.mp hi).2
          simp [itemizedSection, htype]
      · simp at hname

/-- C9 (witness).  A run with `excludeManaged: true` whose listings return installed items
next to unmanaged ones in both rounds: the document holds `Foo` and `MyFolder/MyReport`
only, and the statement of C9 holds of it. -/
theorem rendered_members_unmanaged_witness :
    buildPackage (fun _ => none) managedListMetadata
        { all := true, excludeManaged := ExcludeManaged.flag true }
        [{ xmlName := "ApexClass", directoryName := "classes", inFolder := false },
         { xmlName := "Report", directoryName := "reports", inFolder := true }] =
      Except.ok
        { root := "Package"
          encoding := "UTF-8"
          xmlns := "http://soap.sforce.com/2006/04/metadata"
          children :=
            [{ name := "types"
               children := [{ name := "members", text := "Foo" },
                            { name := "name", text := "ApexClass" }] },
             { name := "types"
               children := [{ name := "members", text := "MyFolder/MyReport" },
                            { name := "name", text := "Report" }] },
             { name := "version", text := some "44.0" }] } ∧
    ∃ inventory,
      resolveInventory (fun _ => none) managedListMetadata
          { all := true, excludeManaged := ExcludeManaged.flag true }
          [{ xmlName := "ApexClass", directoryName := "classes", inFolder := false },
           { xmlName := "Report", directoryName := "reports", inFolder := true }]
          = Except.ok inventory ∧
        ({ root := "Package"
           encoding := "UTF-8"
           xmlns := "http://soap.sforce.com/2006/04/metadata"
           children :=
            [{ name := "types"
               children := [{ name := "members", text := "Foo" },
                            { name := "name", text := "ApexClass" }] },
             { name := "types"
               children := [{ name := "members", text := "MyFolder/MyReport" },
                            { name := "name", text := "Report" }] },
             { name := "version", text := some "44.0" }] } : PackageDocument) =
          renderPackage { all := true, excludeManaged := ExcludeManaged.flag true }
            inventory.itemizedTypes inventory.wildcardTypes ∧
        ∀ s ∈ itemizedSections inventory.itemizedTypes, ∀ leaf ∈ s.children,
          leaf.name = "members" →
            ∃ item, Listed managedListMetadata "44.0" item ∧
              item.manageableState = "unmanaged" ∧ item.fullName = leaf.text ∧
              ({ name := "name", text := item.type } : XmlLeaf) ∈ s.children :=
  ⟨rfl,
    rendered_members_unmanaged (fun _ => none) managedListMetadata
      { all := true, excludeManaged := ExcludeManaged.flag true }
      [{ xmlName := "ApexClass", directoryName := "classes", inFolder := false },
       { xmlName := "Report", directoryName := "reports", inFolder := true }] _ rfl rfl⟩

/-- C10 (witness).  An `itemizedTypes` map with one non-empty and one empty list. -/
theorem itemizedSections_named_witness :
    (Dict.keys
        [("ApexClass",
            [({ fullName := "Foo", type := "ApexClass", manageableState := "unmanaged" } :
              MetadataItem)]),
          ("Report", [])]).Nodup ∧
      (itemizedSections
          [("ApexClass",
              [{ fullName := "Foo", type := "ApexClass", manageableState := "unmanaged" }]),
            ("Report", [])]).filter
          (fun s => decide (({ name := "name", text := "ApexClass" } : XmlLeaf) ∈ s.children)) =
        [{ name := "types"
           children := [{ name := "members", text := "Foo" },
                        { name := "name", text := "ApexClass" }] }] ∧
      ∀ s ∈ itemizedSections
          [("ApexClass",
              [{ fullName := "Foo", type := "ApexClass", manageableState := "unmanaged" }]),
            ("Report", [])],
        ({ name := "name", text := "Report" } : XmlLeaf) ∉ s.children :=
  ⟨by decide,
    (itemizedSections_named
      [("ApexClass",
          [{ fullName := "Foo", type := "ApexClass", manageableState := "unmanaged" }]),
        ("Report", [])] (by decide) "ApexClass").2
      { fullName := "Foo", type := "ApexClass", manageableState := "unmanaged" } [] rfl,
    (itemizedSections_named
      [("ApexClass",
          [{ fullName := "Foo", type := "ApexClass", manageableState := "unmanaged" }]),
        ("Report", [])] (by decide) "Report").1 (Or.inr rfl)⟩

/-! ## The task: validation, chain, completion code -/

theorem filter_isFileWrite_listCalls (sets : List (List ListMetadataQuery)) (v : String) :
    (sets.map (fun queries => Event.listMetadata queries v)).filter Event.isFileWrite = [] := by
  induction sets with
  | nil => rfl
  | cons q rest ih => simp [Event.isFileWrite]

theorem runChain_spec (env : Environment) (options : Options) (creds : Credentials) :
    (runChain env options creds).1.filter Event.isFileWrite =
        (match manifestText env options creds with
          | Except.ok xml => [Event.fileWrite options.dest xml]
          | Except.error _ => []) ∧
      (runChain env options creds).2 =
        (manifestText env options creds >>= fun xml => env.fileWrite options.dest xml) := by
  unfold runChain manifestText buildPackage resolveInventory getClients describeCallback
    classifyCallback firstPassCallback renderCallback
  cases h₁ : env.getPartnerClient creds (soapEndpoint options creds) with
  | error e => simp [Chain.andThen, h₁, bind, Except.bind, Event.isFileWrite]
  | ok u₁ =>
  cases h₂ : env.getMetaClient with
  | error e => simp [Chain.andThen, h₁, h₂, bind, Except.bind, Event.isFileWrite]
  | ok u₂ =>
  cases h₃ : env.describeMetadata options.apiVersion with
  | error e => simp [Chain.andThen, h₁, h₂, h₃, bind, Except.bind, Event.isFileWrite]
  | ok metadataObjects =>
  rcases hc : classify env.noWildcardTypesLib options metadataObjects with ⟨classified, err⟩
  cases err with
  | some e => simp [Chain.andThen, h₁, h₂, h₃, hc, bind, Except.bind, Event.isFileWrite]
  | none =>
  cases h₄ : listAll env.listMetadata options.apiVersion classified.plan.listQuerySets.sets with
  | error e =>
    simp [Chain.andThen, h₁, h₂, h₃, hc, h₄, bind, Except.bind, Event.isFileWrite, Except.map]
  | ok listResults =>
  cases h₅ : firstPassHandler options classified.plan.folderNameToType
      classified.plan.itemizedTypes listResults with
  | error e =>
    simp [Chain.andThen, h₁, h₂, h₃, hc, h₄, h₅, bind, Except.bind, Event.isFileWrite,
      Except.map]
  | ok firstPass =>
  cases h₆ : listAll env.listMetadata options.apiVersion firstPass.folderContentQueries.sets with
  | error e =>
    simp [Chain.andThen, h₁, h₂, h₃, hc, h₄, h₅, h₆, bind, Except.bind, Event.isFileWrite,
      Except.map]
  | ok contentResults =>
  cases h₇ : folderContentHandler options firstPass.itemizedTypes contentResults with
  | error e =>
    simp [Chain.andThen, h₁, h₂, h₃, hc, h₄, h₅, h₆, h₇, bind, Except.bind, Event.isFileWrite,
      Except.map]
  | ok itemizedTypes =>
  cases h₈ : env.pkgEnd (renderPackage options itemizedTypes classified.wildcardTypes) with
  | error e =>
    simp [Chain.andThen, h₁, h₂, h₃, hc, h₄, h₅, h₆, h₇, h₈, bind, Except.bind,
      Event.isFileWrite, Except.map, pure, Except.pure]
  | ok xml =>
    simp [Chain.andThen, h₁, h₂, h₃, hc, h₄, h₅, h₆, h₇, h₈, bind, Except.bind,
      Event.isFileWrite, Except.map, pure, Except.pure, filter_isFileWrite_listCalls]

theorem getLast?_finish (options : Options) (c : Chain Unit) :
    (finish options c).getLast? =
      some (Event.done (match c.2 with
        | Except.ok _ => 0
        | Except.error _ => 6)) := by
  unfold finish
  rw [List.getLast?_concat]

theorem filter_isFileWrite_finish (options : Options) (c : Chain Unit) :
    (finish options c).filter Event.isFileWrite = c.1.filter Event.isFileWrite := by
  unfold finish
  cases c.2 <;> cases options.clearCache <;> simp [Event.isFileWrite]

theorem runTask_cases (env : Environment) (taskOptions : Options) :
    (∃ message, runTask env taskOptions = [Event.warn message]) ∨
      ∃ creds, runTask env taskOptions =
        finish (normalizeExcludeManaged taskOptions)
          (runChain env (normalizeExcludeManaged taskOptions) creds) := by
  have hafter : ∀ creds,
      (∃ message, afterLogin env (normalizeExcludeManaged taskOptions) creds
          = [Event.warn message]) ∨
        afterLogin env (normalizeExcludeManaged taskOptions) creds =
          finish (normalizeExcludeManaged taskOptions)
            (runChain env (normalizeExcludeManaged taskOptions) creds) := by
    intro creds
    unfold afterLogin
    split
    · exact Or.inl ⟨_, rfl⟩
    · exact Or.inr rfl
  cases hlogin : (normalizeExcludeManaged taskOptions).login with
  | none => exact Or.inl ⟨"Login credentials missing", by simp [runTask, hlogin]⟩
  | some login =>
    cases login with
    | file path =>
      by_cases hp : path = ""
      · exact Or.inl ⟨"Login credentials missing", by simp [runTask, hlogin, hp]⟩
      · cases hr : env.readJSON path with
        | error e => exact Or.inl ⟨"Unable to read login", by simp [runTask, hlogin, hp, hr]⟩
        | ok creds =>
          rcases hafter creds with ⟨m, hm⟩ | hm
          · exact Or.inl ⟨m, by simp [runTask, hlogin, hp, hr, hm]⟩
          · exact Or.inr ⟨creds, by simp [runTask, hlogin, hp, hr, hm]⟩
    | inline url =>
      rcases hafter { url := url } with ⟨m, hm⟩ | hm
      · exact Or.inl ⟨m, by simp [runTask, hlogin, hm]⟩
      · exact Or.inr ⟨{ url := url }, by simp [runTask, hlogin, hm]⟩

theorem finish_runChain_of_error (env : Environment) (options : Options)
    (creds : Credentials) (e : JsError) (he : manifestText env options creds = Except.error e) :
    (finish options (runChain env options creds)).filter Event.isFileWrite = [] ∧
      (finish options (runChain env options creds)).getLast? = some (Event.done 6) := by
  obtain ⟨hw, hr⟩ := runChain_spec env options creds
  rw [he] at hw hr
  rw [filter_isFileWrite_finish, getLast?_finish, hw]
  simp only [bind, Except.bind] at hr
  simp [hr]

theorem finish_runChain_of_ok (env : Environment) (options : Options)
    (creds : Credentials) (xml : String) (hx : manifestText env options creds = Except.ok xml) :
    (finish options (runChain env options creds)).filter Event.isFileWrite =
        [Event.fileWrite options.dest xml] ∧
      (env.fileWrite options.dest xml = Except.ok () →
        (finish options (runChain env options creds)).getLast? = some (Event.done 0)) := by
  obtain ⟨hw, hr⟩ := runChain_spec env options creds
  rw [hx] at hw hr
  rw [filter_isFileWrite_finish, getLast?_finish, hw]
  simp only [bind, Except.bind] at hr
  refine ⟨rfl, ?_⟩
  intro hwrite
  rw [hr, hwrite]

/-- C15.  A run of the task either stops at validation with a single warning or is the
chain with its `catch` and `finally` handlers.  For that chain: when a stage before the
write fails (session, describe, classification, a listing round or its handler, rendering
and serialisation), no file is written and the last event is `done(6)`; when every stage
succeeds, the task writes the manifest text to `options.dest`, once, and the last event is
`done(0)` (provided the write itself does not throw). -/
theorem chain_all_or_nothing (env : Environment) (options : Options) (creds : Credentials) :
    (∀ e, manifestText env options creds = Except.error e →
        (finish options (runChain env options creds)).filter Event.isFileWrite = [] ∧
          (finish options (runChain env options creds)).getLast? = some (Event.done 6)) ∧
      (∀ xml, manifestText env options creds = Except.ok xml →
        (finish options (runChain env options creds)).filter Event.isFileWrite =
            [Event.fileWrite options.dest xml] ∧
          (env.fileWrite options.dest xml = Except.ok () →
            (finish options (runChain env options creds)).getLast? = some (Event.done 0))) ∧
      (∀ taskOptions,
        (∃ message, runTask env taskOptions = [Event.warn message]) ∨
          ∃ creds', runTask env taskOptions =
            finish (normalizeExcludeManaged taskOptions)
              (runChain env (normalizeExcludeManaged taskOptions) creds')) :=
  ⟨fun e he => finish_runChain_of_error env options creds e he,
    fun xml hx => finish_runChain_of_ok env options creds xml hx,
    fun taskOptions => runTask_cases env taskOptions⟩

/-- C16.  When `login` is missing, or when neither `all` nor `included` is set, the task
issues a single warning and returns: no remote interface is called and no file is
written. -/
theorem validation_failure_no_remote (env : Environment) (taskOptions : Options)
    (h : taskOptions.login = none ∨ (taskOptions.all = false ∧ taskOptions.included = none)) :
    (∃ message, runTask env taskOptions = [Event.warn message]) ∧
      (runTask env taskOptions).filter Event.isRemote = [] ∧
      (runTask env taskOptions).filter Event.isFileWrite = [] := by
  have hmain : ∃ message, runTask env taskOptions = [Event.warn message] := by
    have hl : (normalizeExcludeManaged taskOptions).login = taskOptions.login := by
      unfold normalizeExcludeManaged
      split <;> rfl
    have ha : (normalizeExcludeManaged taskOptions).all = taskOptions.all := by
      unfold normalizeExcludeManaged
      split <;> rfl
    have hi : (normalizeExcludeManaged taskOptions).included = taskOptions.included := by
      unfold normalizeExcludeManaged
      split <;> rfl
    unfold runTask
    simp only [hl]
    cases hlogin : taskOptions.login with
    | none => exact ⟨_, rfl⟩
    | some login =>
      have hsel : taskOptions.all = false ∧ taskOptions.included = none := by
        rcases h with h | h
        · rw [hlogin] at h
          cases h
        · exact h
      have hafter : ∀ creds, ∃ message,
          afterLogin env (normalizeExcludeManaged taskOptions) creds = [Event.warn message] := by
        intro creds
        unfold afterLogin
        simp [ha, hi, hsel.1, hsel.2]
      cases login with
      | file path =>
        by_cases hp : path = ""
        · exact ⟨"Login credentials missing", by simp [hp]⟩
        · cases hr : env.readJSON path with
          | error e => exact ⟨"Unable to read login", by simp [hp, hr]⟩
          | ok creds =>
            obtain ⟨m, hm⟩ := hafter creds
            exact ⟨m, by simp [hp, hr, hm]⟩
      | inline url =>
        obtain ⟨m, hm⟩ := hafter { url := url }
        exact ⟨m, by simp [hm]⟩
  obtain ⟨m, hm⟩ := hmain
  exact ⟨⟨m, hm⟩, by simp [hm, Event.isRemote], by simp [hm, Event.isFileWrite]⟩

/-- C16 (witness).  The default options, without `login`. -/
theorem validation_failure_no_remote_witness :
    (({} : Options).login = none ∨ (({} : Options).all = false ∧ ({} : Options).included = none)) ∧
      (∃ message, runTask scenarioEnvironment {} = [Event.warn message]) ∧
      (runTask scenarioEnvironment {}).filter Event.isRemote = [] ∧
      (runTask scenarioEnvironment {}).filter Event.isFileWrite = [] :=
  ⟨Or.inl rfl, validation_failure_no_remote scenarioEnvironment {} (Or.inl rfl)⟩

/-! ## Unknown API version -/

theorem classify_unknown_version (noWildcardTypesLib : NoWildcardTypesLib) (options : Options)
    (metadataObjects : List MetadataTypeDescriptor)
    (hunknown : noWildcardTypesLib options.apiVersion = none)
    (hwild : options.useWildcards = true)
    (hvalid : options.all = true ∨ options.included ≠ none)
    (hne : metadataObjects ≠ []) :
    ∃ e, classify noWildcardTypesLib options metadataObjects =
      ({ wildcardTypes := [], plan := {} }, some e) := by
  cases metadataObjects with
  | nil => exact absurd rfl hne
  | cons md rest =>
    by_cases hset : options.included ≠ none ∨ options.excluded ≠ none
    · refine ⟨JsError.referenceError, ?_⟩
      simp [classify, classifyLoop, includeMetadataType_of_set options md hset]
    · push_neg at hset
      have hall : options.all = true := by
        rcases hvalid with h | h
        · exact h
        · exact absurd hset.1 h
      have hinc := includeMetadataType_of_unset options md hset.1 hset.2
      rw [hall] at hinc
      refine ⟨JsError.typeError, ?_⟩
      have hw : wildcardTest options none md = Except.error JsError.typeError := by
        simp [wildcardTest, hwild, bind, Except.bind, pure, Except.pure]
      simp [classify, classifyLoop, hinc, hunknown, hw]

theorem wildcardTypes_unknown_version (noWildcardTypesLib : NoWildcardTypesLib)
    (options : Options) (metadataObjects : List MetadataTypeDescriptor)
    (hunknown : noWildcardTypesLib options.apiVersion = none) :
    (classify noWildcardTypesLib options metadataObjects).1.wildcardTypes = [] := by
  rw [(classify_cases noWildcardTypesLib options metadataObjects).1]
  obtain ⟨hmw, _⟩ := classifyLoop_mem options (noWildcardTypesLib options.apiVersion)
    metadataObjects {}
  apply List.eq_nil_iff_forall_not_mem.mpr
  intro d hd
  rcases hmw d hd with h | ⟨_, h⟩
  · simp at h
  · rw [hunknown] at h
    unfold wildcardTest at h
    cases hu : options.useWildcards <;> simp [hu, bind, Except.bind, pure, Except.pure] at h

/-- C14 (counterexample).  With no entry for the API version in the no-wildcard table:
when `useWildcards` is false the table is never consulted, classification succeeds and the
scenario's manifest document is produced; and with `useWildcards` true but an empty catalog
classification succeeds as well. -/
theorem unknown_version_run_succeeds :
    (classify (fun _ => none) (normalizeExcludeManaged { all := true })
        [{ xmlName := "ApexClass", directoryName := "classes", inFolder := false },
         { xmlName := "Report", directoryName := "reports", inFolder := true }]).2 = none ∧
      buildPackage (fun _ => none) scenarioListMetadata (normalizeExcludeManaged { all := true })
          [{ xmlName := "ApexClass", directoryName := "classes", inFolder := false },
           { xmlName := "Report", directoryName := "reports", inFolder := true }] =
        Except.ok
          { root := "Package"
            encoding := "UTF-8"
            xmlns := "http://soap.sforce.com/2006/04/metadata"
            children :=
              [{ name := "types"
                 children := [{ name := "members", text := "Foo" },
                              { name := "name", text := "ApexClass" }] },
               { name := "types"
                 children := [{ name := "members", text := "MyFolder/MyReport" },
                              { name := "name", text := "Report" }] },
               { name := "version", text := some "44.0" }] } ∧
      buildPackage (fun _ => none) scenarioListMetadata
          (normalizeExcludeManaged { all := true, useWildcards := true }) [] =
        Except.ok
          { root := "Package"
            encoding := "UTF-8"
            xmlns := "http://soap.sforce.com/2006/04/metadata"
            children := [{ name := "version", text := some "44.0" }] } :=
  ⟨rfl, rfl, rfl⟩

/-- C14 (amended).  When the no-wildcard table has no entry for `options.apiVersion`,
`useWildcards` is true and the catalog is not empty, then for every configuration that
passed validation (`all` or `included` is set) classification throws, no type is classified
as wildcard, the chain is rejected, and a run whose describe call returned this catalog
writes no file and ends with `done(6)`. -/
theorem unknown_version_fails (env : Environment) (options : Options) (creds : Credentials)
    (metadataObjects : List MetadataTypeDescriptor)
    (hunknown : env.noWildcardTypesLib options.apiVersion = none)
    (hwild : options.useWildcards = true)
    (hvalid : options.all = true ∨ options.included ≠ none)
    (hne : metadataObjects ≠ []) :
    (classify env.noWildcardTypesLib options metadataObjects).2 ≠ none ∧
      (classify env.noWildcardTypesLib options metadataObjects).1.wildcardTypes = [] ∧
      (∃ e, buildPackage env.noWildcardTypesLib env.listMetadata options metadataObjects
        = Except.error e) ∧
      (env.describeMetadata options.apiVersion = Except.ok metadataObjects →
        (finish options (runChain env options creds)).filter Event.isFileWrite = [] ∧
          (finish options (runChain env options creds)).getLast? = some (Event.done 6)) := by
  obtain ⟨e, hc⟩ := classify_unknown_version env.noWildcardTypesLib options metadataObjects
    hunknown hwild hvalid hne
  have hb : buildPackage env.noWildcardTypesLib env.listMetadata options metadataObjects
      = Except.error e := by
    simp [buildPackage, resolveInventory, hc, bind, Except.bind]
  refine ⟨by simp [hc], by simp [hc], ⟨e, hb⟩, ?_⟩
  intro hdesc
  have hm : ∃ e', manifestText env options creds = Except.error e' := by
    unfold manifestText
    cases h₁ : env.getPartnerClient creds (soapEndpoint options creds) with
    | error e₁ => exact ⟨e₁, by simp [bind, Except.bind]⟩
    | ok u₁ =>
      cases h₂ : env.getMetaClient with
      | error e₂ => exact ⟨e₂, by simp [bind, Except.bind]⟩
      | ok u₂ => exact ⟨e, by simp [hdesc, hb, bind, Except.bind]⟩
  obtain ⟨e', he'⟩ := hm
  exact finish_runChain_of_error env options creds e' he'

/-- C14 (witness).  The mocked environment (no version has an entry) with `all` and
`useWildcards` set. -/
theorem unknown_version_fails_witness :
    scenarioEnvironment.noWildcardTypesLib
        ({ all := true, useWildcards := true } : Options).apiVersion = none ∧
      (finish { all := true, useWildcards := true }
          (runChain scenarioEnvironment { all := true, useWildcards := true } {})).getLast?
        = some (Event.done 6) :=
  ⟨rfl,
    ((unknown_version_fails scenarioEnvironment { all := true, useWildcards := true } {}
      [{ xmlName := "ApexClass", directoryName := "classes", inFolder := false },
       { xmlName := "Report", directoryName := "reports", inFolder := true }]
      rfl rfl (Or.inl rfl) (by simp)).2.2.2 rfl).2⟩

/-! ## Folder pseudo-names and itemized keys -/

theorem get?_registerFolders (typesToQuery : List MetadataTypeDescriptor) (d : Dict String)
    (p t : String) (h : (registerFolders typesToQuery d).get? p = some t) :
    d.get? p = some t ∨
      ∃ md ∈ typesToQuery, md.inFolder = true ∧ metaTypeName md = p ∧ md.xmlName = t := by
  induction typesToQuery generalizing d with
  | nil => exact Or.inl (by simpa [registerFolders] using h)
  | cons md rest ih =>
    simp only [registerFolders, List.foldl_cons] at h
    rcases ih _ h with h' | ⟨md', hmd', hrest⟩
    · cases hf : md.inFolder with
      | false =>
        simp only [hf, Bool.false_eq_true, if_false] at h'
        exact Or.inl h'
      | true =>
        simp only [hf, if_true] at h'
        by_cases hp : p = metaTypeName md
        · subst hp
          rw [Dict.get?_set_self] at h'
          exact Or.inr ⟨md, List.mem_cons_self _ _, hf, rfl, Option.some.inj h'⟩
        · rw [Dict.get?_set_ne _ _ _ _ hp] at h'
          exact Or.inl h'
    · exact Or.inr ⟨md', List.mem_cons_of_mem _ hmd', hrest⟩

theorem classify_plan_of_catalog (noWildcardTypesLib : NoWildcardTypesLib) (options : Options)
    (metadataObjects : List MetadataTypeDescriptor) :
    (classify noWildcardTypesLib options metadataObjects).1.plan = {} ∨
      ∃ typesToQuery, (∀ md ∈ typesToQuery, md ∈ metadataObjects) ∧
        (classify noWildcardTypesLib options metadataObjects).1.plan.itemizedTypes =
          initItemized typesToQuery [] ∧
        (classify noWildcardTypesLib options metadataObjects).1.plan.folderNameToType =
          registerFolders typesToQuery [] := by
  obtain ⟨_, hplan⟩ := classify_cases noWildcardTypesLib options metadataObjects
  rcases hplan with ⟨hempty, _, _⟩ | ⟨_, _, hq⟩
  · exact Or.inl hempty
  · right
    obtain ⟨_, hmq⟩ := classifyLoop_mem options (noWildcardTypesLib options.apiVersion)
      metadataObjects {}
    refine ⟨(classifyLoop options (noWildcardTypesLib options.apiVersion)
      metadataObjects {}).1.typesToQuery, ?_, ?_⟩
    · intro md hmd
      rcases hmq md hmd with h | h
      · simp at h
      · exact h.1
    · obtain ⟨b, _, hq'⟩ := planQueries_eq
        (classifyLoop options (noWildcardTypesLib options.apiVersion)
          metadataObjects {}).1.typesToQuery
      rw [hq'] at hq
      rw [← Except.ok.inj hq]
      exact ⟨rfl, rfl⟩

/-- C17 (counterexample).  A catalog listing the type `ReportFolder` next to the folder
type `Report`: after classification `ReportFolder` is a key of `folderNameToType` (the
pseudo-name of `Report`) and a key of `itemizedTypes` (the type of that name). -/
theorem pseudo_name_is_itemized_key :
    "ReportFolder" ∈
        (classify (fun _ => none) (normalizeExcludeManaged { all := true })
          [{ xmlName := "ReportFolder", directoryName := "reportFolders", inFolder := false },
           { xmlName := "Report", directoryName := "reports", inFolder := true }]
        ).1.plan.folderNameToType.keys ∧
      "ReportFolder" ∈
        (classify (fun _ => none) (normalizeExcludeManaged { all := true })
          [{ xmlName := "ReportFolder", directoryName := "reportFolders", inFolder := false },
           { xmlName := "Report", directoryName := "reports", inFolder := true }]
        ).1.plan.itemizedTypes.keys := by
  decide

/-- C17 (amended).  For every catalog in which no `xmlName` equals the folder pseudo-name
of an `inFolder` type of the catalog, and every configuration, after classification no key
of `folderNameToType` is a key of `itemizedTypes`, and `folderNameToType` maps each of its
keys to the real `xmlName` of an `inFolder` type with that pseudo-name, which is a key of
`itemizedTypes`. -/
theorem folder_names_disjoint_from_itemized (noWildcardTypesLib : NoWildcardTypesLib)
    (options : Options) (metadataObjects : List MetadataTypeDescriptor)
    (hcat : ∀ d₁ ∈ metadataObjects, ∀ d₂ ∈ metadataObjects,
      d₁.inFolder = true → metaTypeName d₁ ≠ d₂.xmlName) :
    (∀ name,
        ¬ (name ∈ (classify noWildcardTypesLib options
              metadataObjects).1.plan.folderNameToType.keys ∧
            name ∈ (classify noWildcardTypesLib options
              metadataObjects).1.plan.itemizedTypes.keys)) ∧
      (∀ name real,
        (classify noWildcardTypesLib options metadataObjects).1.plan.folderNameToType.get? name
            = some real →
          real ∈ (classify noWildcardTypesLib options
              metadataObjects).1.plan.itemizedTypes.keys ∧
            ∃ md ∈ metadataObjects,
              md.inFolder = true ∧ metaTypeName md = name ∧ md.xmlName = real) := by
  rcases classify_plan_of_catalog noWildcardTypesLib options metadataObjects with
    hempty | ⟨typesToQuery, hsub, hit, hf2t⟩
  · rw [hempty]
    exact ⟨fun name h => by simp [Dict.keys] at h, fun name real h => by simp [Dict.get?] at h⟩
  · rw [hit, hf2t]
    have hget : ∀ name real, (registerFolders typesToQuery []).get? name = some real →
        ∃ md ∈ typesToQuery, md.inFolder = true ∧ metaTypeName md = name ∧ md.xmlName = real := by
      intro name real h
      rcases get?_registerFolders typesToQuery [] name real h with h' | h'
      · simp [Dict.get?] at h'
      · exact h'
    constructor
    · rintro name ⟨hf, hi⟩
      cases hg : (registerFolders typesToQuery []).get? name with
      | none =>
        rw [Dict.get?_eq_none_iff] at hg
        exact hg hf
      | some real =>
        obtain ⟨md, hmd, hin, hname, _⟩ := hget name real hg
        rw [mem_keys_initItemized] at hi
        simp only [Dict.keys, List.map_nil, List.not_mem_nil, false_or, List.mem_map] at hi
        obtain ⟨md', hmd', hx⟩ := hi
        exact hcat md (hsub md hmd) md' (hsub md' hmd') hin (hname.trans hx.symm)
    · intro name real h
      obtain ⟨md, hmd, hin, hname, hreal⟩ := hget name real h
      refine ⟨?_, md, hsub md hmd, hin, hname, hreal⟩
      rw [mem_keys_initItemized]
      exact Or.inr (List.mem_map.mpr ⟨md, hmd, hreal⟩)

/-- C17 (witness).  The scenario catalog: `ReportFolder` is the only pseudo-name and maps
to `Report`. -/
theorem folder_names_disjoint_from_itemized_witness :
    (∀ d₁ ∈ [({ xmlName := "ApexClass", directoryName := "classes", inFolder := false } :
          MetadataTypeDescriptor),
        { xmlName := "Report", directoryName := "reports", inFolder := true }],
      ∀ d₂ ∈ [({ xmlName := "ApexClass", directoryName := "classes", inFolder := false } :
          MetadataTypeDescriptor),
        { xmlName := "Report", directoryName := "reports", inFolder := true }],
      d₁.inFolder = true → metaTypeName d₁ ≠ d₂.xmlName) ∧
    ¬ ("ReportFolder" ∈
        (classify (fun _ => none) (normalizeExcludeManaged { all := true })
          [{ xmlName := "ApexClass", directoryName := "classes", inFolder := false },
           { xmlName := "Report", directoryName := "reports", inFolder := true }]
        ).1.plan.folderNameToType.keys ∧
      "ReportFolder" ∈
        (classify (fun _ => none) (normalizeExcludeManaged { all := true })
          [{ xmlName := "ApexClass", directoryName := "classes", inFolder := false },
           { xmlName := "Report", directoryName := "reports", inFolder := true }]
        ).1.plan.itemizedTypes.keys) :=
  ⟨by decide,
    (folder_names_disjoint_from_itemized (fun _ => none)
      (normalizeExcludeManaged { all := true })
      [{ xmlName := "ApexClass", directoryName := "classes", inFolder := false },
       { xmlName := "Report", directoryName := "reports", inFolder := true }]
      (by decide)).1 "ReportFolder"⟩

/-! ## What the handlers append -/

theorem pushAll_ok_iff (items : List MetadataItem) (d : Dict (List MetadataItem)) :
    (∃ d', pushAll d items = Except.ok d') ↔ ∀ item ∈ items, item.type ∈ d.keys := by
  constructor
  · rintro ⟨d', h⟩
    exact (pushAll_ok items d d' h).2.2
  · exact pushAll_of_tracked items d

theorem firstPassHandler_ok_iff (options : Options) (folderNameToType : Dict String)
    (itemizedTypes : Dict (List MetadataItem))
    (listResults : List (Option (List MetadataItem))) :
    (∃ fp, firstPassHandler options folderNameToType itemizedTypes listResults
        = Except.ok fp) ↔
      ∀ item ∈ allItems listResults,
        folderNameToType.get? item.type = none → includeMetadataItem options item = true →
          item.type ∈ itemizedTypes.keys := by
  constructor
  · rintro ⟨fp, h⟩ item hitem hf hinc
    have hp := (firstPassHandler_filled options folderNameToType itemizedTypes listResults
      fp h).2
    refine (pushAll_ok _ _ _ hp).2.2 item ?_
    simp [admittedFirstPass, hitem, hf, hinc]
  · intro h
    obtain ⟨fp, hfp, _⟩ := firstPassHandler_ok_of_tracked options folderNameToType
      itemizedTypes listResults h
    exact ⟨fp, hfp⟩

/-- C12 (counterexample).  The listing for `ApexClass` returns an unmanaged item of the
type `Dashboard`, which is not a key of `itemizedTypes`: the push of that item throws a
TypeError and the chain is rejected instead of leaving the item out. -/
theorem untracked_type_rejects_chain :
    buildPackage (fun _ => none) untrackedListMetadata (normalizeExcludeManaged { all := true })
        [{ xmlName := "ApexClass", directoryName := "classes", inFolder := false }] =
      Except.error JsError.typeError := by
  rfl

/-- C12 (amended).  In both handlers an item that is not a folder record is appended to
`itemizedTypes[item.type]` exactly when it passes the item filter, and the keys of
`itemizedTypes` do not change; the handler completes exactly when every such item that
passes the filter has a type that is a key of `itemizedTypes` (otherwise the push throws
and the chain is rejected). -/
theorem handlers_append_admitted (options : Options) (folderNameToType : Dict String)
    (itemizedTypes : Dict (List MetadataItem))
    (listResults contentResults : List (Option (List MetadataItem))) :
    ((∃ fp, firstPassHandler options folderNameToType itemizedTypes listResults
          = Except.ok fp) ↔
        ∀ item ∈ allItems listResults,
          folderNameToType.get? item.type = none → includeMetadataItem options item = true →
            item.type ∈ itemizedTypes.keys) ∧
      (∀ fp, firstPassHandler options folderNameToType itemizedTypes listResults
          = Except.ok fp →
        fp.itemizedTypes.keys = itemizedTypes.keys ∧
          ∀ k, fp.itemizedTypes.get? k =
            (itemizedTypes.get? k).map (fun l =>
              l ++ (allItems listResults).filter (fun item =>
                (folderNameToType.get? item.type).isNone && includeMetadataItem options item
                  && decide (item.type = k)))) ∧
      ((∃ final, folderContentHandler options itemizedTypes contentResults
          = Except.ok final) ↔
        ∀ item ∈ allItems contentResults,
          includeMetadataItem options item = true → item.type ∈ itemizedTypes.keys) ∧
      (∀ final, folderContentHandler options itemizedTypes contentResults = Except.ok final →
        final.keys = itemizedTypes.keys ∧
          ∀ k, final.get? k =
            (itemizedTypes.get? k).map (fun l =>
              l ++ (allItems contentResults).filter (fun item =>
                includeMetadataItem options item && decide (item.type = k)))) := by
  refine ⟨firstPassHandler_ok_iff options folderNameToType itemizedTypes listResults,
    ?_, ?_, ?_⟩
  · intro fp h
    have hp := (firstPassHandler_filled options folderNameToType itemizedTypes listResults
      fp h).2
    obtain ⟨hk, hg, _⟩ := pushAll_ok _ _ _ hp
    refine ⟨hk, fun k => ?_⟩
    rw [hg k]
    simp [admittedFirstPass, List.filter_filter, Bool.and_comm]
  · rw [folderContentHandler_eq, pushAll_ok_iff]
    simp [List.mem_filter]
  · intro final h
    rw [folderContentHandler_eq] at h
    obtain ⟨hk, hg, _⟩ := pushAll_ok _ _ _ h
    refine ⟨hk, fun k => ?_⟩
    rw [hg k]
    simp [List.filter_filter, Bool.and_comm]

/-! ## Empty and absent listing results -/

theorem allItems_insert_empty (before after : List (Option (List MetadataItem)))
    (res : Option (List MetadataItem)) (hres : res = none ∨ res = some []) :
    allItems (before ++ res :: after) = allItems (before ++ after) := by
  rcases hres with rfl | rfl <;> simp [allItems, List.filterMap_append]

/-- C13.  In both rounds a listing result that is absent (`res[0]` falsy) or empty leaves
the handler state as it is: no item is added to `itemizedTypes`, no folder-content query is
added, no exception is thrown, and the handler ends as it does on the other results alone.
In the mocked run whose second batch has no result the manifest is built from the first. -/
theorem empty_result_is_no_items (options : Options) (folderNameToType : Dict String) :
    (∀ st, firstPassResult options folderNameToType st none = Except.ok st ∧
        firstPassResult options folderNameToType st (some []) = Except.ok st) ∧
      (∀ d, folderContentResult options d none = Except.ok d ∧
        folderContentResult options d (some []) = Except.ok d) ∧
      (∀ itemizedTypes before after res, (res = none ∨ res = some []) →
        firstPassHandler options folderNameToType itemizedTypes (before ++ res :: after) =
            firstPassHandler options folderNameToType itemizedTypes (before ++ after) ∧
          folderContentHandler options itemizedTypes (before ++ res :: after) =
            folderContentHandler options itemizedTypes (before ++ after)) ∧
      buildPackage (fun _ => none) sparseListMetadata (normalizeExcludeManaged { all := true })
          [{ xmlName := "ApexClass", directoryName := "classes", inFolder := false },
           { xmlName := "ApexPage", directoryName := "pages", inFolder := false },
           { xmlName := "ApexTrigger", directoryName := "triggers", inFolder := false },
           { xmlName := "Report", directoryName := "reports", inFolder := true }] =
        Except.ok
          { root := "Package"
            encoding := "UTF-8"
            xmlns := "http://soap.sforce.com/2006/04/metadata"
            children :=
              [{ name := "types"
                 children := [{ name := "members", text := "Foo" },
                              { name := "name", text := "ApexClass" }] },
               { name := "version", text := some "44.0" }] } := by
  refine ⟨fun st => ⟨rfl, rfl⟩, fun d => ⟨rfl, rfl⟩, ?_, rfl⟩
  intro itemizedTypes before after res hres
  constructor
  · unfold firstPassHandler
    rw [foldlM_firstPassResult, foldlM_firstPassResult, allItems_insert_empty _ _ _ hres]
  · rw [folderContentHandler_eq, folderContentHandler_eq, allItems_insert_empty _ _ _ hres]

/-! ## Folder records -/

/-- C20.  A first-pass item whose type is a key of `folderNameToType`: the callback does
nothing but add its folder-content query to the batches (the item filter and
`itemizedTypes` are not involved, whatever the options and the `manageableState`); when
the handler completes, the query of the item is in the query plan, and no list of
`itemizedTypes` (all empty before the handler ran) holds the item. -/
theorem folder_record_only_queried (options : Options) (folderNameToType : Dict String)
    (itemizedTypes : Dict (List MetadataItem))
    (listResults : List (Option (List MetadataItem))) (fp : FirstPass)
    (item : MetadataItem) (contentType : String)
    (hitem : item ∈ allItems listResults)
    (hfolder : folderNameToType.get? item.type = some contentType)
    (hinit : ∀ entry ∈ itemizedTypes, entry.2 = [])
    (hrun : firstPassHandler options folderNameToType itemizedTypes listResults
      = Except.ok fp) :
    (∀ st, firstPassItem options folderNameToType st item =
        (st.folderContentQueries.add { type := contentType, folder := some item.fullName }).map
          (fun queries => { st with folderContentQueries := queries })) ∧
      ({ type := contentType, folder := some item.fullName } : ListMetadataQuery) ∈
        fp.folderContentQueries.sets.flatten ∧
      (∀ k l, fp.itemizedTypes.get? k = some l → item ∉ l) := by
  obtain ⟨hfilled, hpush⟩ := firstPassHandler_filled options folderNameToType itemizedTypes
    listResults fp hrun
  refine ⟨?_, ?_, ?_⟩
  · intro st
    unfold firstPassItem
    rw [hfolder]
    cases hadd : st.folderContentQueries.add
        { type := contentType, folder := some item.fullName } <;>
      simp [hadd, bind, Except.bind, Except.map, pure, Except.pure]
  · rw [hfilled.1, List.mem_filterMap]
    exact ⟨item, hitem, by simp [folderQuery?, hfolder]⟩
  · intro k l hl hmem
    obtain ⟨_, hg, _⟩ := pushAll_ok _ _ _ hpush
    rw [hg k] at hl
    cases h₀ : itemizedTypes.get? k with
    | none => simp [h₀] at hl
    | some l₀ =>
      have hl₀ : l₀ = [] := hinit (k, l₀) (Dict.mem_of_get? itemizedTypes k l₀ h₀)
      subst hl₀
      simp only [h₀, Option.map_some', List.nil_append, Option.some.injEq] at hl
      rw [← hl] at hmem
      simp [admittedFirstPass, List.mem_filter, hfolder] at hmem

/-- C20 (witness).  An installed folder record under `excludeManaged: true`: its query is
planned and it is in no item list. -/
theorem folder_record_only_queried_witness :
    ({ fullName := "FolderB", type := "ReportFolder", manageableState := "installed" } :
        MetadataItem) ∈
        allItems
          [some [{ fullName := "Foo", type := "ApexClass", manageableState := "unmanaged" },
                 { fullName := "FolderB", type := "ReportFolder",
                   manageableState := "installed" }]] ∧
      includeMetadataItem { all := true, excludeManaged := ExcludeManaged.flag true }
          { fullName := "FolderB", type := "ReportFolder", manageableState := "installed" }
        = false ∧
      ({ type := "Report", folder := some "FolderB" } : ListMetadataQuery) ∈
        ({ folderContentQueries :=
            { sets := [[{ type := "Report", folder := some "FolderB" }]], counter := 1 }
           itemizedTypes :=
            [("ApexClass",
                [{ fullName := "Foo", type := "ApexClass", manageableState := "unmanaged" }]),
              ("Report", [])] } : FirstPass).folderContentQueries.sets.flatten :=
  ⟨by decide, by decide,
    (folder_record_only_queried { all := true, excludeManaged := ExcludeManaged.flag true }
      [("ReportFolder", "Report")] [("ApexClass", []), ("Report", [])]
      [some [{ fullName := "Foo", type := "ApexClass", manageableState := "unmanaged" },
             { fullName := "FolderB", type := "ReportFolder",
               manageableState := "installed" }]]
      { folderContentQueries :=
          { sets := [[{ type := "Report", folder := some "FolderB" }]], counter := 1 }
        itemizedTypes :=
          [("ApexClass",
              [{ fullName := "Foo", type := "ApexClass", manageableState := "unmanaged" }]),
            ("Report", [])] }
      { fullName := "FolderB", type := "ReportFolder", manageableState := "installed" }
      "Report" (by decide) rfl (by decide) rfl).2.1⟩

/-! ## Default `excludeManaged` -/

theorem wildcardTest_of_no_exclusion (options : Options) (nw : Option (List String))
    (md : MetadataTypeDescriptor) (hem : options.excludeManaged = ExcludeManaged.names [])
    (hknown : nw ≠ none ∨ options.useWildcards = false) :
    wildcardTest options nw md = Except.ok false := by
  unfold wildcardTest ExcludeManaged.includes
  cases hu : options.useWildcards with
  | false => simp [pure, Except.pure]
  | true =>
    cases nw with
    | none =>
      rcases hknown with h | h
      · exact absurd rfl h
      · rw [hu] at h
        cases h
    | some l =>
      by_cases hx : md.xmlName ∈ l <;> simp [hx, hem, pure, Except.pure, bind, Except.bind]

theorem includeMetadataItem_of_no_exclusion (options : Options) (item : MetadataItem)
    (hem : options.excludeManaged = ExcludeManaged.names []) :
    includeMetadataItem options item = true := by
  unfold includeMetadataItem
  simp [hem]

theorem inclusionRule_of_unset (options : Options) (md : MetadataTypeDescriptor)
    (hi : options.included = none) (he : options.excluded = none) :
    inclusionRule options md = options.all := by
  simp [inclusionRule, hi, he]

/-- The `members` entries of the itemized sections of a completed run are the names of
listed items that passed the item filter. -/
theorem itemized_members_listed (noWildcardTypesLib : NoWildcardTypesLib)
    (listMetadata : ListMetadata) (options : Options)
    (metadataObjects : List MetadataTypeDescriptor) (inventory : Inventory)
    (hinv : resolveInventory noWildcardTypesLib listMetadata options metadataObjects
      = Except.ok inventory) :
    ∀ s ∈ itemizedSections inventory.itemizedTypes, ∀ leaf ∈ s.children,
      leaf.name = "members" →
        ∃ item, Listed listMetadata options.apiVersion item ∧
          includeMetadataItem options item = true ∧ item.fullName = leaf.text := by
  obtain ⟨plan, listResults, firstPass, contentResults, _, h₁, _, h₃, _, hnodup, hitems⟩ :=
    inventory_items noWildcardTypesLib listMetadata options metadataObjects inventory hinv
  intro s hs leaf hleaf hname
  simp only [itemizedSections, List.mem_filterMap] at hs
  obtain ⟨⟨k, l⟩, hkl, hsec⟩ := hs
  have hmem : (k, l) ∈ inventory.itemizedTypes :=
    (forInEntries_perm inventory.itemizedTypes).mem_iff.mp hkl
  have hl := hitems k l (Dict.get?_of_mem inventory.itemizedTypes hnodup k l hmem)
  by_cases hlen : l.length = 0
  · simp [hlen] at hsec
  · simp only [hlen, if_false, Option.some.injEq] at hsec
    subst hsec
    simp only [itemizedSection, List.mem_append, List.mem_map, List.mem_singleton] at hleaf
    rcases hleaf with ⟨item, hitem, rfl⟩ | rfl
    · rw [hl] at hitem
      rcases List.mem_append.mp hitem with hi | hi
      · simp only [admittedFirstPass, List.mem_filter, Bool.and_eq_true] at hi
        exact ⟨item, listed_of_mem_allItems listMetadata _ _ _ h₁ item hi.1.1, hi.1.2.2, rfl⟩
      · simp only [List.mem_filter] at hi
        exact ⟨item, listed_of_mem_allItems listMetadata _ _ _ h₃ item hi.1.1, hi.1.2, rfl⟩
    · simp at hname

/-- C19 (counterexample).  First, default `excludeManaged`, `useWildcards: true`, and an
API version without entry in the no-wildcard table: `ApexClass` is included, but the
wildcard test throws, so the type is not itemized and the chain is rejected.  Second, with
a known version, a listing that returns an item whose `fullName` is `*`: no type is
classified as wildcard, yet the document holds a section with the member `*`. -/
theorem default_excludeManaged_unknown_version :
    (returnsTrue (includeMetadataType
          (normalizeExcludeManaged { all := true, useWildcards := true })
          { xmlName := "ApexClass", directoryName := "classes", inFolder := false }) = true ∧
        "ApexClass" ∉
          (classify (fun _ => none)
            (normalizeExcludeManaged { all := true, useWildcards := true })
            [{ xmlName := "ApexClass", directoryName := "classes", inFolder := false }]
          ).1.plan.itemizedTypes.keys ∧
        buildPackage (fun _ => none) scenarioListMetadata
            (normalizeExcludeManaged { all := true, useWildcards := true })
            [{ xmlName := "ApexClass", directoryName := "classes", inFolder := false }] =
          Except.error JsError.typeError) ∧
      ((classify (fun _ => some [])
            (normalizeExcludeManaged { all := true, useWildcards := true })
            [{ xmlName := "ApexClass", directoryName := "classes", inFolder := false }]
          ).1.wildcardTypes = [] ∧
        buildPackage (fun _ => some []) starListMetadata
            (normalizeExcludeManaged { all := true, useWildcards := true })
            [{ xmlName := "ApexClass", directoryName := "classes", inFolder := false }] =
          Except.ok
            { root := "Package"
              encoding := "UTF-8"
              xmlns := "http://soap.sforce.com/2006/04/metadata"
              children :=
                [{ name := "types"
                   children := [{ name := "members", text := "*" },
                                { name := "name", text := "ApexClass" }] },
                 { name := "version", text := some "44.0" }] }) :=
  ⟨⟨rfl, by decide, rfl⟩, rfl, rfl⟩

/-- C19 (amended).  With `excludeManaged` left at its default `false` (normalised to the
empty list) and an API version that has an entry in the no-wildcard table (or with
`useWildcards` false), for every catalog: `wildcardTypes` stays empty; when neither
`included` nor `excluded` is set, every type included by the rule of the specification is a
key of `itemizedTypes`; `includeMetadataItem` admits every item; and a rendered document is
the rendering of the run's inventory without wildcard type, in which every `members` entry
is the `fullName` of a listed item, so that no section holds the member `*` unless a listed
item is itself named `*`. -/
theorem default_excludeManaged_itemizes (noWildcardTypesLib : NoWildcardTypesLib)
    (options : Options) (metadataObjects : List MetadataTypeDescriptor)
    (hdefault : options.excludeManaged = ExcludeManaged.flag false)
    (hknown : noWildcardTypesLib options.apiVersion ≠ none ∨ options.useWildcards = false) :
    (classify noWildcardTypesLib (normalizeExcludeManaged options)
        metadataObjects).1.wildcardTypes = [] ∧
      (options.included = none → options.excluded = none →
        ∀ d ∈ metadataObjects, inclusionRule (normalizeExcludeManaged options) d = true →
          d.xmlName ∈ (classify noWildcardTypesLib (normalizeExcludeManaged options)
            metadataObjects).1.plan.itemizedTypes.keys) ∧
      (∀ item, includeMetadataItem (normalizeExcludeManaged options) item = true) ∧
      (∀ listMetadata doc,
        buildPackage noWildcardTypesLib listMetadata (normalizeExcludeManaged options)
            metadataObjects = Except.ok doc →
          (∃ inventory,
            resolveInventory noWildcardTypesLib listMetadata (normalizeExcludeManaged options)
                metadataObjects = Except.ok inventory ∧
              inventory.wildcardTypes = [] ∧
              doc = renderPackage (normalizeExcludeManaged options)
                inventory.itemizedTypes []) ∧
            (∀ s ∈ doc.children, ∀ leaf ∈ s.children, leaf.name = "members" →
              ∃ item, Listed listMetadata options.apiVersion item ∧
                item.fullName = leaf.text) ∧
            ((∀ item, Listed listMetadata options.apiVersion item → item.fullName ≠ "*") →
              ∀ s ∈ doc.children,
                ({ name := "members", text := "*" } : XmlLeaf) ∉ s.children)) := by
  have hnorm : normalizeExcludeManaged options =
      { options with excludeManaged := ExcludeManaged.names [] } := by
    simp [normalizeExcludeManaged, hdefault]
  have hem : (normalizeExcludeManaged options).excludeManaged = ExcludeManaged.names [] := by
    rw [hnorm]
  have hv : (normalizeExcludeManaged options).apiVersion = options.apiVersion := by
    rw [hnorm]
  have hu : (normalizeExcludeManaged options).useWildcards = options.useWildcards := by
    rw [hnorm]
  have hinc' : (normalizeExcludeManaged options).included = options.included := by
    rw [hnorm]
  have hexc' : (normalizeExcludeManaged options).excluded = options.excluded := by
    rw [hnorm]
  have hwt : ∀ d, wildcardTest (normalizeExcludeManaged options)
      (noWildcardTypesLib (normalizeExcludeManaged options).apiVersion) d = Except.ok false :=
    fun d => wildcardTest_of_no_exclusion _ _ d hem (by rw [hv, hu]; exact hknown)
  obtain ⟨hwild, hplan⟩ := classify_cases noWildcardTypesLib (normalizeExcludeManaged options)
    metadataObjects
  obtain ⟨hmw, _⟩ := classifyLoop_mem (normalizeExcludeManaged options)
    (noWildcardTypesLib (normalizeExcludeManaged options).apiVersion) metadataObjects {}
  have hw : (classify noWildcardTypesLib (normalizeExcludeManaged options)
      metadataObjects).1.wildcardTypes = [] := by
    rw [hwild]
    apply List.eq_nil_iff_forall_not_mem.mpr
    intro d hd
    rcases hmw d hd with h | ⟨_, h⟩
    · simp at h
    · rw [hwt d] at h
      simp at h
  refine ⟨hw, ?_, fun item => includeMetadataItem_of_no_exclusion _ item hem, ?_⟩
  · intro hi he d hd hrule
    have hset : (normalizeExcludeManaged options).included = none ∧
        (normalizeExcludeManaged options).excluded = none := ⟨hinc'.trans hi, hexc'.trans he⟩
    rw [inclusionRule_of_unset _ d hset.1 hset.2] at hrule
    have hall : ∀ d', includeMetadataType (normalizeExcludeManaged options) d' =
        Except.ok (normalizeExcludeManaged options).all :=
      fun d' => includeMetadataType_of_unset _ d' hset.1 hset.2
    have hloop := classifyLoop_of_ok (normalizeExcludeManaged options)
      (noWildcardTypesLib (normalizeExcludeManaged options).apiVersion)
      (normalizeExcludeManaged options).all (fun _ => false) hall hwt metadataObjects {}
    rcases hplan with ⟨_, hne, heq⟩ | ⟨_, _, hq⟩
    · rw [heq, hloop] at hne
      exact absurd rfl hne
    · rw [hloop] at hq
      obtain ⟨b, _, hq'⟩ := planQueries_eq
        (List.filter (fun _ => (normalizeExcludeManaged options).all && !false)
          metadataObjects)
      simp only [List.nil_append] at hq
      rw [hq'] at hq
      rw [← Except.ok.inj hq, mem_keys_initItemized]
      refine Or.inr (List.mem_map.mpr ⟨d, ?_, rfl⟩)
      simp [hd, hrule]
  · intro listMetadata doc hdoc
    unfold buildPackage at hdoc
    cases hinv : resolveInventory noWildcardTypesLib listMetadata
        (normalizeExcludeManaged options) metadataObjects with
    | error e => simp [hinv, bind, Except.bind] at hdoc
    | ok inventory =>
      simp only [hinv, bind, Except.bind, pure, Except.pure, Except.ok.injEq] at hdoc
      obtain ⟨plan, _, _, _, hc, _⟩ := resolveInventory_stages noWildcardTypesLib listMetadata
        (normalizeExcludeManaged options) metadataObjects inventory hinv
      rw [hc] at hw
      simp only at hw
      have hdoc' : doc = renderPackage (normalizeExcludeManaged options)
          inventory.itemizedTypes [] := by
        rw [← hdoc, hw]
      have hmembers : ∀ s ∈ doc.children, ∀ leaf ∈ s.children, leaf.name = "members" →
          ∃ item, Listed listMetadata options.apiVersion item ∧
            item.fullName = leaf.text := by
        intro s hs leaf hleaf hname
        rw [hdoc'] at hs
        simp only [renderPackage, wildcardSections, List.map_nil, List.append_nil,
          List.mem_append, List.mem_singleton] at hs
        rcases hs with hs | hs
        · obtain ⟨item, hlisted, _, hfull⟩ := itemized_members_listed noWildcardTypesLib
            listMetadata (normalizeExcludeManaged options) metadataObjects inventory hinv
            s hs leaf hleaf hname
          rw [hv] at hlisted
          exact ⟨item, hlisted, hfull⟩
        · subst hs
          simp at hleaf
      refine ⟨⟨inventory, rfl, hw, hdoc'⟩, hmembers, ?_⟩
      intro hstar s hs hmem
      obtain ⟨item, hlisted, hfull⟩ := hmembers s hs _ hmem rfl
      exact hstar item hlisted hfull

/-- C19 (witness).  Default `excludeManaged`, `useWildcards: true`, a version with an entry
in the table, and the scenario's listings: the document of the run holds no member `*`. -/
theorem default_excludeManaged_itemizes_witness :
    ({ all := true, useWildcards := true } : Options).excludeManaged
        = ExcludeManaged.flag false ∧
      ((fun _ => some ["Report"]) : NoWildcardTypesLib)
        ({ all := true, useWildcards := true } : Options).apiVersion ≠ none ∧
      (classify (fun _ => some ["Report"])
        (normalizeExcludeManaged { all := true, useWildcards := true })
        [{ xmlName := "ApexClass", directoryName := "classes", inFolder := false },
         { xmlName := "Report", directoryName := "reports", inFolder := true }]
      ).1.wildcardTypes = [] ∧
      "Report" ∈
        (classify (fun _ => some ["Report"])
          (normalizeExcludeManaged { all := true, useWildcards := true })
          [{ xmlName := "ApexClass", directoryName := "classes", inFolder := false },
           { xmlName := "Report", directoryName := "reports", inFolder := true }]
        ).1.plan.itemizedTypes.keys :=
  ⟨rfl, by simp,
    (default_excludeManaged_itemizes (fun _ => some ["Report"])
      { all := true, useWildcards := true }
      [{ xmlName := "ApexClass", directoryName := "classes", inFolder := false },
       { xmlName := "Report", directoryName := "reports", inFolder := true }]
      rfl (Or.inl (by simp))).1,
    (default_excludeManaged_itemizes (fun _ => some ["Report"])
      { all := true, useWildcards := true }
      [{ xmlName := "ApexClass", directoryName := "classes", inFolder := false },
       { xmlName := "Report", directoryName := "reports", inFolder := true }]
      rfl (Or.inl (by simp))).2.1 rfl rfl
      { xmlName := "Report", directoryName := "reports", inFolder := true }
      (by decide) (by decide)⟩

/-! ## The item lists at the end of the handlers -/

theorem final_items (noWildcardTypesLib : NoWildcardTypesLib) (options : Options)
    (metadataObjects : List MetadataTypeDescriptor) (c : Classified)
    (listResults contentResults : List (Option (List MetadataItem)))
    (fp : FirstPass) (final : Dict (List MetadataItem))
    (hc : classify noWildcardTypesLib options metadataObjects = (c, none))
    (h₁ : firstPassHandler options c.plan.folderNameToType c.plan.itemizedTypes listResults
      = Except.ok fp)
    (h₂ : folderContentHandler options fp.itemizedTypes contentResults = Except.ok final) :
    final.keys = c.plan.itemizedTypes.keys ∧ final.keys.Nodup ∧
      (∀ k ∈ final.keys, final.get? k =
        some (membersOf options c.plan.folderNameToType listResults contentResults k)) ∧
      ∀ k ∈ final.keys, ∃ md ∈ metadataObjects, md.xmlName = k := by
  obtain ⟨typesToQuery, _, hinit, _⟩ := classify_plan noWildcardTypesLib options
    metadataObjects c hc
  obtain ⟨hk₁, hg₁, _⟩ := pushAll_ok _ _ _
    (firstPassHandler_filled options c.plan.folderNameToType c.plan.itemizedTypes listResults
      fp h₁).2
  rw [folderContentHandler_eq] at h₂
  obtain ⟨hk₂, hg₂, _⟩ := pushAll_ok _ _ _ h₂
  have hkeys : final.keys = c.plan.itemizedTypes.keys := hk₂.trans hk₁
  have hnodup : c.plan.itemizedTypes.keys.Nodup := by
    rw [hinit]
    exact nodup_keys_initItemized typesToQuery [] (by simp [Dict.keys])
  refine ⟨hkeys, by rw [hkeys]; exact hnodup, ?_, ?_⟩
  · intro k hk
    rw [hg₂ k, hg₁ k]
    cases h₀ : c.plan.itemizedTypes.get? k with
    | none =>
      rw [Dict.get?_eq_none_iff, ← hkeys] at h₀
      exact absurd hk h₀
    | some l₀ =>
      have hl₀ : l₀ = [] := by
        rw [hinit] at h₀
        exact get?_initItemized typesToQuery [] (by simp [Dict.get?]) k l₀ h₀
      subst hl₀
      simp [membersOf]
  · intro k hk
    rw [hkeys] at hk
    rcases classify_plan_of_catalog noWildcardTypesLib options metadataObjects with
      hempty | ⟨tq, hsub, hit, _⟩
    · rw [hc] at hempty
      simp only at hempty
      rw [hempty] at hk
      simp [Dict.keys] at hk
    · rw [hc] at hit
      simp only at hit
      rw [hit, mem_keys_initItemized] at hk
      simp only [Dict.keys, List.map_nil, List.not_mem_nil, false_or, List.mem_map] at hk
      obtain ⟨md, hmd, hx⟩ := hk
      exact ⟨md, hsub md hmd, hx⟩

/-! ## Duplicates -/

/-- C18 (counterexample).  Each listing result is duplicate-free, but the first-pass result
and the content listing of the folder both return the report `MyFolder/MyReport`: the final
list of `Report` holds it twice. -/
theorem duplicate_across_results :
    (∀ queries version items,
        overlappingListMetadata queries version = Except.ok (some items) → items.Nodup) ∧
      resolveInventory (fun _ => none) overlappingListMetadata
          (normalizeExcludeManaged { all := true })
          [{ xmlName := "Report", directoryName := "reports", inFolder := true }] =
        Except.ok
          { itemizedTypes :=
              [("Report",
                [{ fullName := "MyFolder/MyReport", type := "Report",
                   manageableState := "unmanaged" },
                 { fullName := "MyFolder/MyReport", type := "Report",
                   manageableState := "unmanaged" }])]
            wildcardTypes := [] } := by
  refine ⟨?_, rfl⟩
  intro queries version items h
  unfold overlappingListMetadata at h
  split at h
  · simp only [Except.ok.injEq, Option.some.injEq] at h
    subst h
    decide
  · split at h
    · simp only [Except.ok.injEq, Option.some.injEq] at h
      subst h
      decide
    · simp at h

/-- C18 (amended).  If no two items returned over the whole run (by the listing results of
both rounds, within one result or across results) share both type and `fullName`, then in
the final `itemizedTypes` map no list holds two items with the same `fullName`. -/
theorem no_duplicate_members (noWildcardTypesLib : NoWildcardTypesLib) (options : Options)
    (metadataObjects : List MetadataTypeDescriptor) (c : Classified)
    (listResults contentResults : List (Option (List MetadataItem)))
    (fp : FirstPass) (final : Dict (List MetadataItem))
    (hc : classify noWildcardTypesLib options metadataObjects = (c, none))
    (h₁ : firstPassHandler options c.plan.folderNameToType c.plan.itemizedTypes listResults
      = Except.ok fp)
    (h₂ : folderContentHandler options fp.itemizedTypes contentResults = Except.ok final)
    (hdistinct : (allItems listResults ++ allItems contentResults).Pairwise
      (fun a b => ¬ (a.type = b.type ∧ a.fullName = b.fullName))) :
    ∀ k l, final.get? k = some l → (l.map (fun item => item.fullName)).Nodup := by
  intro k l hl
  obtain ⟨_, _, hget, _⟩ := final_items noWildcardTypesLib options metadataObjects c
    listResults contentResults fp final hc h₁ h₂
  have hk : k ∈ final.keys := by
    by_contra hk
    rw [← Dict.get?_eq_none_iff] at hk
    rw [hk] at hl
    cases hl
  rw [hget k hk] at hl
  have hl' := Option.some.inj hl
  have hsub : l.Sublist (allItems listResults ++ allItems contentResults) := by
    rw [← hl']
    unfold membersOf admittedFirstPass
    exact List.Sublist.append ((List.filter_sublist _).trans (List.filter_sublist _))
      ((List.filter_sublist _).trans (List.filter_sublist _))
  have htype : ∀ item ∈ l, item.type = k := by
    intro item hitem
    rw [← hl'] at hitem
    unfold membersOf at hitem
    rcases List.mem_append.mp hitem with h | h
    · simpa using (List.mem_filter.mp h).2
    · simpa using (List.mem_filter.mp h).2
  rw [List.Nodup, List.pairwise_map]
  refine (hdistinct.sublist hsub).imp_of_mem ?_
  intro a b ha hb hab heq
  exact hab ⟨(htype a ha).trans (htype b hb).symm, heq⟩

/-- C18 (witness).  The scenario: the class `Foo` and the folder `MyFolder` in the first
round, the report `MyFolder/MyReport` in the second. -/
theorem no_duplicate_members_witness :
    (allItems
        [some [({ fullName := "Foo", type := "ApexClass", manageableState := "unmanaged" } :
                  MetadataItem),
               { fullName := "MyFolder", type := "ReportFolder",
                 manageableState := "unmanaged" }]]
      ++ allItems
        [some [{ fullName := "MyFolder/MyReport", type := "Report",
                 manageableState := "unmanaged" }]]).Pairwise
        (fun a b => ¬ (a.type = b.type ∧ a.fullName = b.fullName)) ∧
      (List.map (fun item => item.fullName)
        [({ fullName := "MyFolder/MyReport", type := "Report",
            manageableState := "unmanaged" } : MetadataItem)]).Nodup :=
  ⟨by decide,
    no_duplicate_members (fun _ => none) (normalizeExcludeManaged { all := true })
      [{ xmlName := "ApexClass", directoryName := "classes", inFolder := false },
       { xmlName := "Report", directoryName := "reports", inFolder := true }]
      { wildcardTypes := []
        plan :=
          { listQuerySets :=
              { sets := [[{ type := "ApexClass" }, { type := "ReportFolder" }]], counter := 2 }
            folderNameToType := [("ReportFolder", "Report")]
            itemizedTypes := [("ApexClass", []), ("Report", [])] } }
      [some [{ fullName := "Foo", type := "ApexClass", manageableState := "unmanaged" },
             { fullName := "MyFolder", type := "ReportFolder",
               manageableState := "unmanaged" }]]
      [some [{ fullName := "MyFolder/MyReport", type := "Report",
               manageableState := "unmanaged" }]]
      { folderContentQueries :=
          { sets := [[{ type := "Report", folder := some "MyFolder" }]], counter := 1 }
        itemizedTypes :=
          [("ApexClass",
              [{ fullName := "Foo", type := "ApexClass", manageableState := "unmanaged" }]),
            ("Report", [])] }
      [("ApexClass",
          [{ fullName := "Foo", type := "ApexClass", manageableState := "unmanaged" }]),
        ("Report",
          [{ fullName := "MyFolder/MyReport", type := "Report",
             manageableState := "unmanaged" }])]
      rfl rfl rfl (by decide) "Report" _ rfl⟩

/-! ## Order of the rendered sections -/

theorem forInEntries_of_no_index {α : Type} (obj : Dict α)
    (h : ∀ k ∈ obj.keys, isArrayIndex k = false) : forInEntries obj = obj := by
  have hmem : ∀ e ∈ obj, isArrayIndex e.1 = false := fun e he =>
    h e.1 (List.mem_map.mpr ⟨e, he, rfl⟩)
  have h₁ : obj.filter (fun e => isArrayIndex e.1) = [] := by
    rw [List.filter_eq_nil_iff]
    intro e he
    simp [hmem e he]
  have h₂ : obj.filter (fun e => !isArrayIndex e.1) = obj := by
    rw [List.filter_eq_self]
    intro e he
    simp [hmem e he]
  unfold forInEntries
  rw [h₁, h₂]
  simp

theorem filterMap_entries_eq_keys {α β : Type} (d : Dict α) (hd : d.keys.Nodup)
    (g : String × α → Option β) :
    d.filterMap g = d.keys.filterMap (fun k => (d.get? k).bind (fun v => g (k, v))) := by
  induction d with
  | nil => simp [Dict.keys]
  | cons e rest ih =>
    obtain ⟨k₀, v₀⟩ := e
    simp only [Dict.keys, List.map_cons, List.nodup_cons] at hd
    have hrest : rest.filterMap g =
        (Dict.keys rest).filterMap
          (fun k => (Dict.get? ((k₀, v₀) :: rest) k).bind (fun v => g (k, v))) := by
      rw [ih hd.2]
      apply List.filterMap_congr
      intro k hk
      have hne : k₀ ≠ k := fun hkk => hd.1 (hkk ▸ hk)
      simp [Dict.get?, hne]
    simp only [Dict.keys, List.map_cons, List.filterMap_cons] at hrest ⊢
    rw [hrest]
    simp [Dict.get?]

/-- C11 (counterexample).  A catalog registering the type `Workflow` before a type named
`7`: the `for ... in` loop visits the array-index key `7` first, so the section of `7`
precedes the section of `Workflow`, against the registration order. -/
theorem numeric_type_name_rendered_first :
    (classify (fun _ => none) (normalizeExcludeManaged { all := true })
        [{ xmlName := "Workflow", directoryName := "workflows", inFolder := false },
         { xmlName := "7", directoryName := "sevens", inFolder := false }]
      ).1.plan.itemizedTypes.keys = ["Workflow", "7"] ∧
      buildPackage (fun _ => none) numericListMetadata (normalizeExcludeManaged { all := true })
          [{ xmlName := "Workflow", directoryName := "workflows", inFolder := false },
           { xmlName := "7", directoryName := "sevens", inFolder := false }] =
        Except.ok
          { root := "Package"
            encoding := "UTF-8"
            xmlns := "http://soap.sforce.com/2006/04/metadata"
            children :=
              [{ name := "types"
                 children := [{ name := "members", text := "Seven" },
                              { name := "name", text := "7" }] },
               { name := "types"
                 children := [{ name := "members", text := "Case" },
                              { name := "name", text := "Workflow" }] },
               { name := "version", text := some "44.0" }] } :=
  ⟨rfl, rfl⟩

/-- C11 (amended).  For every classification result in which no key of `itemizedTypes` is
an array index, and all listing results of the two rounds on which the handlers complete,
the children of the rendered `Package` element are, in this order: one section per
itemized type with at least one member, in the order the types were registered, holding
the `fullName` of its members in append order (first-pass items, then folder-content
items) followed by its name; one section per wildcard type in the order of
`wildcardTypes`, holding the member `*` followed by its name; the `version` element. -/
theorem rendered_children_order (noWildcardTypesLib : NoWildcardTypesLib) (options : Options)
    (metadataObjects : List MetadataTypeDescriptor) (c : Classified)
    (listResults contentResults : List (Option (List MetadataItem)))
    (fp : FirstPass) (final : Dict (List MetadataItem))
    (hc : classify noWildcardTypesLib options metadataObjects = (c, none))
    (h₁ : firstPassHandler options c.plan.folderNameToType c.plan.itemizedTypes listResults
      = Except.ok fp)
    (h₂ : folderContentHandler options fp.itemizedTypes contentResults = Except.ok final)
    (hidx : ∀ k ∈ c.plan.itemizedTypes.keys, isArrayIndex k = false) :
    (renderPackage options final c.wildcardTypes).children =
      c.plan.itemizedTypes.keys.filterMap (fun k =>
          if (membersOf options c.plan.folderNameToType listResults contentResults k).isEmpty
          then none
          else some
            { name := "types"
              children :=
                (membersOf options c.plan.folderNameToType listResults contentResults k).map
                    (fun item => { name := "members", text := item.fullName })
                  ++ [{ name := "name", text := k }] })
        ++ c.wildcardTypes.map (fun wildcard =>
          { name := "types"
            children := [{ name := "members", text := "*" },
                         { name := "name", text := wildcard.xmlName }] })
        ++ [{ name := "version", text := some options.apiVersion }] := by
  obtain ⟨hkeys, hnodup, hget, _⟩ := final_items noWildcardTypesLib options metadataObjects c
    listResults contentResults fp final hc h₁ h₂
  have hsections : itemizedSections final =
      c.plan.itemizedTypes.keys.filterMap (fun k =>
        if (membersOf options c.plan.folderNameToType listResults contentResults k).isEmpty
        then none
        else some
          { name := "types"
            children :=
              (membersOf options c.plan.folderNameToType listResults contentResults k).map
                  (fun item => { name := "members", text := item.fullName })
                ++ [{ name := "name", text := k }] }) := by
    unfold itemizedSections
    rw [forInEntries_of_no_index final (by rw [hkeys]; exact hidx),
      filterMap_entries_eq_keys final hnodup, hkeys]
    apply List.filterMap_congr
    intro k hk
    rw [hget k (by rw [hkeys]; exact hk)]
    cases hm : membersOf options c.plan.folderNameToType listResults contentResults k <;>
      simp [itemizedSection]
  simp only [renderPackage, hsections, wildcardSections]

/-- C11 (witness).  The scenario: `ApexClass` before `Report`, no wildcard type. -/
theorem rendered_children_order_witness :
    (∀ k ∈ Dict.keys [("ApexClass", ([] : List MetadataItem)), ("Report", [])],
        isArrayIndex k = false) ∧
      (renderPackage (normalizeExcludeManaged { all := true })
          [("ApexClass",
              [{ fullName := "Foo", type := "ApexClass", manageableState := "unmanaged" }]),
            ("Report",
              [{ fullName := "MyFolder/MyReport", type := "Report",
                 manageableState := "unmanaged" }])] []).children =
        [{ name := "types"
           children := [{ name := "members", text := "Foo" },
                        { name := "name", text := "ApexClass" }] },
         { name := "types"
           children := [{ name := "members", text := "MyFolder/MyReport" },
                        { name := "name", text := "Report" }] },
         { name := "version", text := some "44.0" }] :=
  ⟨by decide,
    (rendered_children_order (fun _ => none) (normalizeExcludeManaged { all := true })
      [{ xmlName := "ApexClass", directoryName := "classes", inFolder := false },
       { xmlName := "Report", directoryName := "reports", inFolder := true }]
      { wildcardTypes := []
        plan :=
          { listQuerySets :=
              { sets := [[{ type := "ApexClass" }, { type := "ReportFolder" }]], counter := 2 }
            folderNameToType := [("ReportFolder", "Report")]
            itemizedTypes := [("ApexClass", []), ("Report", [])] } }
      [some [{ fullName := "Foo", type := "ApexClass", manageableState := "unmanaged" },
             { fullName := "MyFolder", type := "ReportFolder",
               manageableState := "unmanaged" }]]
      [some [{ fullName := "MyFolder/MyReport", type := "Report",
               manageableState := "unmanaged" }]]
      { folderContentQueries :=
          { sets := [[{ type := "Report", folder := some "MyFolder" }]], counter := 1 }
        itemizedTypes :=
          [("ApexClass",
              [{ fullName := "Foo", type := "ApexClass", manageableState := "unmanaged" }]),
            ("Report", [])] }
      [("ApexClass",
          [{ fullName := "Foo", type := "ApexClass", manageableState := "unmanaged" }]),
        ("Report",
          [{ fullName := "MyFolder/MyReport", type := "Report",
             manageableState := "unmanaged" }])]
      rfl rfl rfl (by decide)).trans (by decide)⟩

end SfdcPackageBuilder
